import Mathlib

/-!
Shallow embedding of the reactive-storage library (Maluscat/reactive-storage)
and proofs about it.

Three source variants matter for the claims:
* the TypeScript variant `src/script/ReactiveStorage.ts` (instanced config,
  an `initial` flag, a `recursive` flag threaded through registration);
* the first JavaScript variant in `src/script/ReactiveStorage.js`
  (runtime key/target checks at the entry points and the static helper
  `addInfiniteDepth`);
* the definition-chain variant `src/unnamed/part_008` (config arrays linked
  by `prepareConfig`, `targets`, single getter call in the get accessor).

JavaScript state (objects, accessor properties, the mutable closure state of
each installed accessor) is modelled by an explicit store: objects are
association lists from keys to properties, accessor properties point into a
table of accessor states, and every stateful operation threads a `St` value.
Recursion (a set can recursively register a whole sub-tree) is bounded by an
explicit fuel argument; all theorems supply ample fuel for the runs they
describe.  User-supplied hooks are modelled as pure functions of their event
argument: a setter hook returns the list of values it passes to the provided
default setter plus the truthiness of its return value.
-/

namespace ReactiveSpec

/-! ## Association lists -/

/-- Lookup in an association list (first binding wins, as in a JS object). -/


def aGet {κ α : Type} [DecidableEq κ] : List (κ × α) → κ → Option α
  | [], _ => none
  | (k0, v0) :: t, k => if k0 = k then some v0 else aGet t k

/-- Insert or replace a binding, keeping the position of an existing key
(JS property order: redefinition keeps the slot, new keys append). -/
def aSet {κ α : Type} [DecidableEq κ] : List (κ × α) → κ → α → List (κ × α)
  | [], k, v => [(k, v)]
  | (k0, v0) :: t, k, v => if k0 = k then (k, v) :: t else (k0, v0) :: aSet t k v

/-- Remove every binding of a key (JS `delete`; keys are unique in objects). -/
def aDel {κ α : Type} [DecidableEq κ] : List (κ × α) → κ → List (κ × α)
  | [], _ => []
  | (k0, v0) :: t, k => if k0 = k then aDel t k else (k0, v0) :: aDel t k

/-! ## JavaScript values, keys and numbers -/

/-- The JS numbers this library manipulates: integers and positive infinity
(the `depth: Infinity` sentinel). -/
inductive JsNum : Type where
  | int (i : Int)
  | inf
  | nan
deriving DecidableEq, Repr

/-- Truthiness of a JS number: `0` and `NaN` are falsy, everything else
truthy. -/
def JsNum.truthy : JsNum → Bool
  | .int i => i ≠ 0
  | .inf => true
  | .nan => false

/-- JS `n - 1` on our numbers (`Infinity - 1 = Infinity`). -/
def JsNum.dec : JsNum → JsNum
  | .int i => .int (i - 1)
  | .inf => .inf
  | .nan => .nan

/-- Property keys: strings, numbers and symbols. -/
inductive JsKey : Type where
  | str (s : String)
  | num (i : Int)
  | sym (n : Nat)
deriving DecidableEq, Repr

/-- JS values as far as this library observes them.  References point into
the store that every operation threads. -/
inductive JsVal : Type where
  | undef
  | null
  | boolV (b : Bool)
  | numV (n : JsNum)
  | strV (s : String)
  | symV (n : Nat)
  | ref (a : Nat)
deriving DecidableEq, Repr

/-- Result classes of the JS `typeof` operator on our values
(note `typeof null` is "object"). -/
inductive JsType : Type where
  | undefinedT | booleanT | numberT | stringT | symbolT | objectT
deriving DecidableEq, Repr

/-- The `typeof` operator. -/
def JsVal.typeofV : JsVal → JsType
  | .undef => .undefinedT
  | .null => .objectT
  | .boolV _ => .booleanT
  | .numV _ => .numberT
  | .strV _ => .stringT
  | .symV _ => .symbolT
  | .ref _ => .objectT

/-- The check `typeof val === "object"` used by the set accessor. -/
def JsVal.typeofObject (v : JsVal) : Bool := v.typeofV = .objectT

/-! ## Objects, properties, accessor states -/

/-- Object kinds: plain object literals, arrays, and `Map` instances
(endpoints may be associative maps; the code branches on `instanceof Map`). -/
inductive ObjKind : Type where
  | plain | array | mapk
deriving DecidableEq, Repr

/-- A property is either a plain data slot or an accessor pair installed by
the registrar, referring to an entry of the accessor-state table. -/
inductive PropVal : Type where
  | data (v : JsVal)
  | acc (id : Nat)
deriving DecidableEq, Repr

/-- One own property: enumerability plus the data/accessor payload. -/
structure Slot : Type where
  enum : Bool
  pv : PropVal
deriving DecidableEq, Repr

/-- A JS object: its kind and its own properties in insertion order.
For `Map` endpoints the same list holds the map entries. -/
structure JsObj : Type where
  kind : ObjKind
  props : List (JsKey × Slot)
deriving DecidableEq, Repr

/-- Argument record passed to a configured setter hook
(`{ val, prevVal, initial, path }`; the `set` closure is modelled by the
hook response below). -/
structure SetArgs : Type where
  val : JsVal
  prevVal : JsVal
  initial : Bool
  path : List JsKey
deriving DecidableEq, Repr

/-- Modelled behaviour of a setter hook: the values it passes to the provided
default setter `set`, in order, and the truthiness of its return value. -/
structure SetResp : Type where
  writes : List JsVal
  handled : Bool

/-- A setter hook, as a pure function of its event argument. -/
def SetterHook : Type := SetArgs → SetResp

/-- A getter hook: receives the fetched value and the path, returns the value
presented to the reader (nullish returns fall back to the raw value). -/
def GetterHook : Type := JsVal → List JsKey → JsVal

/-- The stock depth filters of the `Filter` namespace. -/
inductive FilterFn : Type where
  | objectLiteralOrArray
  | anyF
deriving DecidableEq, Repr

/-- Event log entries: invocations of configured setter / postSetter hooks
with their argument records. -/
inductive Ev : Type where
  | setE (path : List JsKey) (val prevVal : JsVal) (initial : Bool)
  | postE (path : List JsKey) (val prevVal : JsVal) (initial : Bool)
deriving DecidableEq, Repr

/-- A registration configuration (`RegistrationOptions`): optional target and
endpoint (addresses of objects in the store), optional depth filter,
enumerability, the `depth` field (absent, a number, or a nested
configuration), and the three optional hooks.  `postSetter` is tracked by
presence only, since the model records its invocations in the event log. -/
inductive RegOpts : Type where
  | mk (target : Option Nat) (endpoint : Option Nat) (depthFilter : Option FilterFn)
      (enumerable : Option Bool) (depth : Option (JsNum ⊕ RegOpts))
      (getter : Option GetterHook) (setter : Option SetterHook) (postSetter : Bool)

def RegOpts.target : RegOpts → Option Nat
  | .mk t _ _ _ _ _ _ _ => t

def RegOpts.endpoint : RegOpts → Option Nat
  | .mk _ e _ _ _ _ _ _ => e

def RegOpts.depthFilter : RegOpts → Option FilterFn
  | .mk _ _ f _ _ _ _ _ => f

def RegOpts.enumerable : RegOpts → Option Bool
  | .mk _ _ _ en _ _ _ _ => en

def RegOpts.depth : RegOpts → Option (JsNum ⊕ RegOpts)
  | .mk _ _ _ _ d _ _ _ => d

def RegOpts.getterH : RegOpts → Option GetterHook
  | .mk _ _ _ _ _ g _ _ => g

def RegOpts.setterH : RegOpts → Option SetterHook
  | .mk _ _ _ _ _ _ s _ => s

def RegOpts.postH : RegOpts → Bool
  | .mk _ _ _ _ _ _ _ p => p

/-- Rebuild a configuration with a different `endpoint` field. -/
def RegOpts.withEndpoint : RegOpts → Option Nat → RegOpts
  | .mk t _ f en d g s p, e => .mk t e f en d g s p

/-- Rebuild a configuration with a different `target` field. -/
def RegOpts.withTarget : RegOpts → Option Nat → RegOpts
  | .mk _ e f en d g s p, t => .mk t e f en d g s p

/-- Rebuild a configuration with a different `depth` field. -/
def RegOpts.withDepth : RegOpts → Option (JsNum ⊕ RegOpts) → RegOpts
  | .mk t e f en _ g s p, d => .mk t e f en d g s p

/-- The empty configuration `{}`. -/
def RegOpts.empty : RegOpts := .mk none none none none none none none false

/-- Truthiness of a `depth` field value: absent and `0` are falsy, any other
number, `Infinity` and every configuration object are truthy. -/
def depthTruthy : Option (JsNum ⊕ RegOpts) → Bool
  | none => false
  | some (.inl n) => n.truthy
  | some (.inr _) => true

/-- Whether a `depth` field holds a nested configuration object
(the `typeof config.depth === "object"` test). -/
def depthIsObject : Option (JsNum ⊕ RegOpts) → Bool
  | some (.inr _) => true
  | _ => false

/-- State of one installed accessor: the constants captured by the `get`/`set`
closures plus their mutable closure variables (`getter`, `initial`,
`depthOpts` with its reassigned `endpoint` / `target` fields). -/
structure AccSt : Type where
  endpoint : Nat
  key : JsKey
  path : List JsKey
  /-- Current getter: `none` means the plain slot reader
  (`makeGetter(endpoint, key)`), `some t` means `() => depthOpts.target`
  after a depth expansion produced the deep target `t`. -/
  deepT : Option Nat
  getterH : Option GetterHook
  setterH : Option SetterHook
  postH : Bool
  filter : FilterFn
  dOpts : Option RegOpts
  hasCDE : Bool
  initial : Bool
  recursive : Bool

/-- The full mutable state: the object store, the accessor-state table, the
next fresh address, and the log of hook invocations (newest first). -/
structure St : Type where
  heap : List (Nat × JsObj)
  accs : List (Nat × AccSt)
  nxt : Nat
  events : List Ev

/-- The empty state. -/
def St.empty : St := ⟨[], [], 0, []⟩

/-- Allocate a fresh empty object of the given kind. -/
def allocObj (st : St) (k : ObjKind) : Nat × St :=
  (st.nxt, { st with heap := aSet st.heap st.nxt ⟨k, []⟩, nxt := st.nxt + 1 })

/-- Resolve `opt ?? {}`: a supplied address, or a freshly allocated object. -/
def resolveObj (st : St) (o : Option Nat) : Nat × St :=
  match o with
  | some a => (a, st)
  | none => allocObj st .plain

/-- Write a property descriptor (used for `Object.defineProperty` and for raw
data writes into plain objects). -/
def putProp (st : St) (a : Nat) (k : JsKey) (s : Slot) : St :=
  match aGet st.heap a with
  | none => st
  | some o => { st with heap := aSet st.heap a ⟨o.kind, aSet o.props k s⟩ }

/-- Replace the stored accessor state of `id`. -/
def putAcc (st : St) (id : Nat) (A : AccSt) : St :=
  { st with accs := aSet st.accs id A }

/-- Append an event to the log. -/
def logEv (st : St) (e : Ev) : St :=
  { st with events := e :: st.events }

/-- Evaluate a stock depth filter.  `objectLiteralOrArray` accepts exactly
references to array or plain-literal objects (`obj != null` rejects `null`,
`Map` instances fail the prototype test); `any` accepts everything. -/
def evalFilter (heap : List (Nat × JsObj)) : FilterFn → JsVal → Bool
  | .objectLiteralOrArray, .ref a =>
    match aGet heap a with
    | some o => o.kind = .array ∨ o.kind = .plain
    | none => false
  | .objectLiteralOrArray, _ => false
  | .anyF, _ => true

/-- Whether a value is a reference to an array (`Array.isArray`). -/
def isArrayRef (heap : List (Nat × JsObj)) : JsVal → Bool
  | .ref a =>
    match aGet heap a with
    | some o => o.kind = .array
    | none => false
  | _ => false

/-- Nullishness (`?? ` coalescing test). -/
def JsVal.nullish : JsVal → Bool
  | .undef => true
  | .null => true
  | _ => false

/-! ## The TypeScript variant (`src/script/ReactiveStorage.ts`)

`tsMkDepthOpts` embeds lines 414-433 of `#register` (derivation of
`depthOpts` and `hasCustomDepthEndpoint`), the mutual block embeds the
accessor pair defined in lines 435-467, the initial write guard of lines
469-473, and `#makeGetter` / `#makeSetter` (480-498).  `prepareConfig`
(505-512) fills missing targets/endpoints with fresh empty objects. -/

/-- Own enumerable non-symbol keys of a value, in property order: the range
of the `for (const propKey in val)` loop (our objects have no prototype
chain, and `for..in` over `null` iterates nothing). -/
def ownEnumStrKeys (heap : List (Nat × JsObj)) : JsVal → List JsKey
  | .ref a =>
    match aGet heap a with
    | some o => (o.props.filter (fun p => p.2.enum && !(match p.1 with | .sym _ => true | _ => false))).map (·.1)
    | none => []
  | _ => []

/-- Own symbol keys of a value (`Object.getOwnPropertySymbols`, used by the
chain variant; note it does not filter by enumerability). -/
def ownSymKeys (heap : List (Nat × JsObj)) : JsVal → List JsKey
  | .ref a =>
    match aGet heap a with
    | some o => (o.props.filter (fun p => match p.1 with | .sym _ => true | _ => false)).map (·.1)
    | none => []
  | _ => []

/-- Update the current getter of an accessor: `none` resets to the plain slot
reader (`getter = ReactiveStorage.makeGetter(endpoint, key)`), `some t`
redirects it to the deep target (`getter = () => depthOpts.target`). -/
def setDeep (st : St) (id : Nat) (t : Option Nat) : St :=
  match aGet st.accs id with
  | some A => putAcc st id { A with deepT := t }
  | none => st

/-- Lines 414-433 of `ReactiveStorage.ts`: derive the next-level options and
the `hasCustomDepthEndpoint` flag.  Note the source computes the flag as
`!!depthOpts.depth` (truthiness of the *depth* field). -/
def tsMkDepthOpts (config : RegOpts) (recursive : Bool) : Option RegOpts × Bool :=
  if depthTruthy config.depth || recursive then
    let d0 : RegOpts :=
      match config.depth with
      | some (.inr dc) => dc
      | some (.inl n) =>
        if recursive then RegOpts.empty.withDepth (some (.inl .inf))
        else RegOpts.empty.withDepth (some (.inl n.dec))
      | none =>
        if recursive then RegOpts.empty.withDepth (some (.inl .inf))
        else RegOpts.empty
    let hasCDE := depthTruthy d0.depth
    let d1 : RegOpts := .mk d0.target d0.endpoint
      (match d0.depthFilter with | some x => some x | none => config.depthFilter)
      (match d0.enumerable with | some x => some x | none => config.enumerable)
      d0.depth
      (match d0.getterH with | some x => some x | none => config.getterH)
      (match d0.setterH with | some x => some x | none => config.setterH)
      (d0.postH || config.postH)
    (some d1, hasCDE)
  else (none, false)

mutual

/-- Property read `obj[k]`: data slots read directly, accessor slots run the
installed get accessor. -/
def tsGetProp : Nat → St → Nat → JsKey → JsVal
  | 0, _, _, _ => .undef
  | f + 1, st, a, k =>
    match aGet st.heap a with
    | none => .undef
    | some o =>
      match aGet o.props k with
      | none => .undef
      | some sl =>
        match sl.pv with
        | .data v => v
        | .acc id => tsAccGet f st id
termination_by structural f _ _ _ => f

/-- The slot reader built by `makeGetter`: `endpoint.get(key)` for a `Map`,
`endpoint[key]` otherwise. -/
def tsSlotRead : Nat → St → Nat → JsKey → JsVal
  | 0, _, _, _ => .undef
  | f + 1, st, e, k =>
    match aGet st.heap e with
    | none => .undef
    | some o =>
      if o.kind = ObjKind.mapk then
        match aGet o.props k with
        | some sl => match sl.pv with | .data v => v | .acc _ => .undef
        | none => .undef
      else tsGetProp f st e k
termination_by structural f _ _ _ => f

/-- The current internal `getter` closure of an accessor. -/
def tsRawGet : Nat → St → AccSt → JsVal
  | 0, _, _ => .undef
  | f + 1, st, A =>
    match A.deepT with
    | some t => .ref t
    | none => tsSlotRead f st A.endpoint A.key
termination_by structural f _ _ => f

/-- The installed get accessor (line 438-440):
`customGetter?.({ val: getter(), path }) ?? getter()`. -/
def tsAccGet : Nat → St → Nat → JsVal
  | 0, _, _ => .undef
  | f + 1, st, id =>
    match aGet st.accs id with
    | none => .undef
    | some A =>
      match A.getterH with
      | none => tsRawGet f st A
      | some g =>
        let r := g (tsRawGet f st A) A.path
        if r.nullish then tsRawGet f st A else r
termination_by structural f _ _ => f

/-- The slot writer built by `makeSetter`: `endpoint.set(key, val)` for a
`Map`, the plain assignment `endpoint[key] = val` otherwise. -/
def tsSlotWrite : Nat → St → Nat → JsKey → JsVal → St
  | 0, st, _, _, _ => st
  | f + 1, st, e, k, v =>
    match aGet st.heap e with
    | none => st
    | some o =>
      if o.kind = ObjKind.mapk then
        { st with heap := aSet st.heap e ⟨o.kind, aSet o.props k ⟨true, .data v⟩⟩ }
      else tsSetProp f st e k v
termination_by structural f _ _ _ _ => f

/-- Plain property assignment `obj[k] = v`: runs the set accessor when the
property is an accessor, otherwise writes the data slot (creating an
enumerable property when absent). -/
def tsSetProp : Nat → St → Nat → JsKey → JsVal → St
  | 0, st, _, _, _ => st
  | f + 1, st, a, k, v =>
    match aGet st.heap a with
    | none => st
    | some o =>
      match aGet o.props k with
      | some sl =>
        match sl.pv with
        | .acc id => tsAccSet f st id v
        | .data _ => { st with heap := aSet st.heap a ⟨o.kind, aSet o.props k ⟨sl.enum, .data v⟩⟩ }
      | none => { st with heap := aSet st.heap a ⟨o.kind, aSet o.props k ⟨true, .data v⟩⟩ }
termination_by structural f _ _ _ _ => f

/-- The installed set accessor (lines 441-466): read `prevVal` through the
internal getter, run the setter hook (its `set` calls are the `writes` of
the modelled response; a truthy return skips the default write), perform the
default backing write unless handled, then depth-expand or reset the getter,
and finally invoke the postSetter hook. -/
def tsAccSet : Nat → St → Nat → JsVal → St
  | 0, st, _, _ => st
  | f + 1, st, id, val =>
    match aGet st.accs id with
    | none => st
    | some A =>
      let prevVal := tsRawGet f st A
      let stepped :=
        match A.setterH with
        | none => (st, false)
        | some h =>
          let st1 := logEv st (.setE A.path val prevVal A.initial)
          let resp := h ⟨val, prevVal, A.initial, A.path⟩
          (resp.writes.foldl (fun s w => tsSlotWrite f s A.endpoint A.key w) st1, resp.handled)
      let st2 := if stepped.2 then stepped.1 else tsSlotWrite f stepped.1 A.endpoint A.key val
      let st3 := tsExpand f st2 id A val
      if A.postH then logEv st3 (.postE A.path val prevVal A.initial) else st3
termination_by structural f _ _ _ => f

/-- Lines 446-464: the depth expander.  When depth options exist and the new
value is object-typed and passes the filter: unless `hasCustomDepthEndpoint`,
point the derived endpoint at the value currently returned by this getter;
allocate a fresh deep target ([] for arrays, otherwise an object literal);
re-register every own enumerable key of the new value; redirect the getter to
the deep target.  Otherwise reset the getter to the plain slot reader. -/
def tsExpand : Nat → St → Nat → AccSt → JsVal → St
  | 0, st, _, _, _ => st
  | f + 1, st, id, A, val =>
    match A.dOpts with
    | some D =>
      if val.typeofObject && evalFilter st.heap A.filter val then
        let epVal := tsRawGet f st A
        let D1 := if A.hasCDE then D
          else D.withEndpoint (match epVal with | .ref a => some a | _ => none)
        let stepA := allocObj st (if isArrayRef st.heap val then .array else .plain)
        let D2 := D1.withTarget (some stepA.1)
        let stB := putAcc stepA.2 id { A with dOpts := some D2 }
        let stC := (ownEnumStrKeys stB.heap val).foldl
          (fun s k1 =>
            let v1 := match val with | .ref a => tsGetProp f s a k1 | _ => .undef
            tsRegister f s k1 v1 D2 A.recursive (A.path ++ [k1])) stB
        setDeep stC id (some stepA.1)
      else setDeep st id none
    | none => setDeep st id none
termination_by structural f _ _ _ _ => f

/-- `ReactiveStorage.ts` `#register` (lines 392-474): resolve target and
endpoint, derive depth options, define the accessor property, then perform
the eager initial write unless the initial value is `undefined`, and clear
the `initial` flag. -/
def tsRegister : Nat → St → JsKey → JsVal → RegOpts → Bool → List JsKey → St
  | 0, st, _, _, _, _, _ => st
  | f + 1, st, key, initV, config, recursive, path =>
    let step1 := resolveObj st config.target
    let step2 := resolveObj step1.2 config.endpoint
    let filt := config.depthFilter.getD .objectLiteralOrArray
    let dh := tsMkDepthOpts config recursive
    let accId := step2.2.nxt
    let st3 : St := { step2.2 with
      accs := aSet step2.2.accs accId
        ⟨step2.1, key, path, none, config.getterH, config.setterH, config.postH,
          filt, dh.1, dh.2, true, recursive⟩,
      nxt := step2.2.nxt + 1 }
    let st4 := putProp st3 step1.1 key ⟨config.enumerable.getD true, .acc accId⟩
    let st5 := if initV = .undef then st4 else tsAccSet f st4 accId initV
    match aGet st5.accs accId with
    | some A => putAcc st5 accId { A with initial := false }
    | none => st5
termination_by structural f _ _ _ _ _ _ => f

end

/-- `#prepareConfig` of the TS variant: fill a missing target/endpoint with a
fresh empty object (the source allocates the defaults unconditionally and
lets supplied fields override them; allocating only when missing is
observationally the same). -/
def tsPrepareConfig (config : RegOpts) (st : St) : RegOpts × St :=
  let step1 := resolveObj st config.target
  let step2 := resolveObj step1.2 config.endpoint
  ((config.withTarget (some step1.1)).withEndpoint (some step2.1), step2.2)

/-- The static entry `ReactiveStorage.register` / `registerRecursive` via
`#registerGeneric` for a single key: prepare the configuration, register the
key, and return the addresses of the resulting target and endpoint. -/
def tsRegisterGeneric (f : Nat) (key : JsKey) (initV : JsVal) (config : RegOpts)
    (recursive : Bool) (st : St) : (Nat × Nat) × St :=
  let prep := tsPrepareConfig config st
  let st2 := tsRegister f prep.2 key initV prep.1 recursive [key]
  ((prep.1.target.getD 0, prep.1.endpoint.getD 0), st2)

/-- Instance method `has` (line 277-279): own-property check on the target. -/
def tsHas (st : St) (target : Nat) (k : JsKey) : Bool :=
  match aGet st.heap target with
  | some o => (aGet o.props k).isSome
  | none => false

/-- Remove a key binding from an object of the store, leaving the store
unchanged when the object does not exist. -/
def delProp (st : St) (a : Nat) (k : JsKey) : St :=
  match aGet st.heap a with
  | some o => { st with heap := aSet st.heap a ⟨o.kind, aDel o.props k⟩ }
  | none => st

/-- Instance method `delete` (lines 281-293): when the key is registered,
remove it from the endpoint (`endpoint.delete(key)` for a `Map` endpoint,
`delete endpoint[key]` otherwise — both remove the binding, so the two
branches coincide in the model) and from the target, and report whether it
existed. -/
def tsDelete (st : St) (target endpoint : Nat) (k : JsKey) : Bool × St :=
  if tsHas st target k then
    let st1 :=
      match aGet st.heap endpoint with
      | some o =>
        if o.kind = ObjKind.mapk then delProp st endpoint k else delProp st endpoint k
      | none => st
    (true, delProp st1 target k)
  else (false, st)

/-- Observation helper: follow a key path through property reads, as in the
JS expression `front.k.a.b` (each step reads a property of the previous
reference). -/
def readPath (f : Nat) (st : St) : JsVal → List JsKey → JsVal
  | v, [] => v
  | .ref a, k :: t => readPath f st (tsGetProp f st a k) t
  | _, _ :: _ => (.undef)

/-! ## The definition-chain variant (`src/unnamed/part_008`)

Differences from the TS variant, each embedded below: the get accessor reads
the internal getter exactly once; `hasCustomDepthEndpoint` is
`!!depthOpts.endpoint` (line 191); hook inheritance uses `||=` (for hooks
modelled as present-or-absent this coincides with `??=`); the installed
property is always enumerable (`config.enumerable || true`, line 200); the
depth expander iterates `Object.keys` and then `Object.getOwnPropertySymbols`;
`prepareConfig` links an array of configurations into a definition chain. -/

/-- Lines 177-197 of `part_008`: derive the next-level options;
`hasCustomDepthEndpoint` is the truthiness of the derived *endpoint*. -/
def p8MkDepthOpts (config : RegOpts) (recursive : Bool) : Option RegOpts × Bool :=
  if depthTruthy config.depth || recursive then
    let d0 : RegOpts :=
      match config.depth with
      | some (.inr dc) => dc
      | some (.inl n) =>
        if recursive then RegOpts.empty.withDepth (some (.inl .inf))
        else RegOpts.empty.withDepth (some (.inl n.dec))
      | none =>
        if recursive then RegOpts.empty.withDepth (some (.inl .inf))
        else RegOpts.empty
    let hasCDE := d0.endpoint.isSome
    let d1 : RegOpts := .mk d0.target d0.endpoint
      (match d0.depthFilter with | some x => some x | none => config.depthFilter)
      (match d0.enumerable with | some x => some x | none => config.enumerable)
      d0.depth
      (match d0.getterH with | some x => some x | none => config.getterH)
      (match d0.setterH with | some x => some x | none => config.setterH)
      (d0.postH || config.postH)
    (some d1, hasCDE)
  else (none, false)

mutual

/-- Property read for the chain variant. -/
def p8GetProp : Nat → St → Nat → JsKey → JsVal
  | 0, _, _, _ => .undef
  | f + 1, st, a, k =>
    match aGet st.heap a with
    | none => .undef
    | some o =>
      match aGet o.props k with
      | none => .undef
      | some sl =>
        match sl.pv with
        | .data v => v
        | .acc id => p8AccGet f st id
termination_by structural f _ _ _ => f

/-- Slot reader (`makeGetter`). -/
def p8SlotRead : Nat → St → Nat → JsKey → JsVal
  | 0, _, _, _ => .undef
  | f + 1, st, e, k =>
    match aGet st.heap e with
    | none => .undef
    | some o =>
      if o.kind = ObjKind.mapk then
        match aGet o.props k with
        | some sl => match sl.pv with | .data v => v | .acc _ => .undef
        | none => .undef
      else p8GetProp f st e k
termination_by structural f _ _ _ => f

/-- The current internal `getter` closure. -/
def p8RawGet : Nat → St → AccSt → JsVal
  | 0, _, _ => .undef
  | f + 1, st, A =>
    match A.deepT with
    | some t => .ref t
    | none => p8SlotRead f st A.endpoint A.key
termination_by structural f _ _ => f

/-- Lines 201-205: the get accessor requests the value via the internal
getter exactly once, then applies the custom getter with nullish fallback. -/
def p8AccGet : Nat → St → Nat → JsVal
  | 0, _, _ => .undef
  | f + 1, st, id =>
    match aGet st.accs id with
    | none => .undef
    | some A =>
      let v := p8RawGet f st A
      match A.getterH with
      | none => v
      | some g =>
        let r := g v A.path
        if r.nullish then v else r
termination_by structural f _ _ => f

/-- Slot writer (`makeSetter`). -/
def p8SlotWrite : Nat → St → Nat → JsKey → JsVal → St
  | 0, st, _, _, _ => st
  | f + 1, st, e, k, v =>
    match aGet st.heap e with
    | none => st
    | some o =>
      if o.kind = ObjKind.mapk then
        { st with heap := aSet st.heap e ⟨o.kind, aSet o.props k ⟨true, .data v⟩⟩ }
      else p8SetProp f st e k v
termination_by structural f _ _ _ _ => f

/-- Plain property assignment for the chain variant. -/
def p8SetProp : Nat → St → Nat → JsKey → JsVal → St
  | 0, st, _, _, _ => st
  | f + 1, st, a, k, v =>
    match aGet st.heap a with
    | none => st
    | some o =>
      match aGet o.props k with
      | some sl =>
        match sl.pv with
        | .acc id => p8AccSet f st id v
        | .data _ => { st with heap := aSet st.heap a ⟨o.kind, aSet o.props k ⟨sl.enum, .data v⟩⟩ }
      | none => { st with heap := aSet st.heap a ⟨o.kind, aSet o.props k ⟨true, .data v⟩⟩ }
termination_by structural f _ _ _ _ => f

/-- Lines 206-232: the set accessor of the chain variant. -/
def p8AccSet : Nat → St → Nat → JsVal → St
  | 0, st, _, _ => st
  | f + 1, st, id, val =>
    match aGet st.accs id with
    | none => st
    | some A =>
      let prevVal := p8RawGet f st A
      let stepped :=
        match A.setterH with
        | none => (st, false)
        | some h =>
          let st1 := logEv st (.setE A.path val prevVal A.initial)
          let resp := h ⟨val, prevVal, A.initial, A.path⟩
          (resp.writes.foldl (fun s w => p8SlotWrite f s A.endpoint A.key w) st1, resp.handled)
      let st2 := if stepped.2 then stepped.1 else p8SlotWrite f stepped.1 A.endpoint A.key val
      let st3 := p8Expand f st2 id A val
      if A.postH then logEv st3 (.postE A.path val prevVal A.initial) else st3
termination_by structural f _ _ _ => f

/-- Lines 211-230: the depth expander of the chain variant, iterating string
keys and then own symbols of the new value. -/
def p8Expand : Nat → St → Nat → AccSt → JsVal → St
  | 0, st, _, _, _ => st
  | f + 1, st, id, A, val =>
    match A.dOpts with
    | some D =>
      if val.typeofObject && evalFilter st.heap A.filter val then
        let epVal := p8RawGet f st A
        let D1 := if A.hasCDE then D
          else D.withEndpoint (match epVal with | .ref a => some a | _ => none)
        let stepA := allocObj st (if isArrayRef st.heap val then .array else .plain)
        let D2 := D1.withTarget (some stepA.1)
        let stB := putAcc stepA.2 id { A with dOpts := some D2 }
        let keys := ownEnumStrKeys stB.heap val ++ ownSymKeys stB.heap val
        let stC := keys.foldl
          (fun s k1 =>
            let v1 := match val with | .ref a => p8GetProp f s a k1 | _ => .undef
            p8Register f s k1 v1 D2 A.recursive (A.path ++ [k1])) stB
        setDeep stC id (some stepA.1)
      else setDeep st id none
    | none => setDeep st id none
termination_by structural f _ _ _ _ => f

/-- Lines 166-239 of `part_008`: `#register`.  The installed property is
always enumerable (the source computes `config.enumerable || true`). -/
def p8Register : Nat → St → JsKey → JsVal → RegOpts → Bool → List JsKey → St
  | 0, st, _, _, _, _, _ => st
  | f + 1, st, key, initV, config, recursive, path =>
    let step1 := resolveObj st config.target
    let step2 := resolveObj step1.2 config.endpoint
    let filt := config.depthFilter.getD .objectLiteralOrArray
    let dh := p8MkDepthOpts config recursive
    let accId := step2.2.nxt
    let st3 : St := { step2.2 with
      accs := aSet step2.2.accs accId
        ⟨step2.1, key, path, none, config.getterH, config.setterH, config.postH,
          filt, dh.1, dh.2, true, recursive⟩,
      nxt := step2.2.nxt + 1 }
    let st4 := putProp st3 step1.1 key ⟨true, .acc accId⟩
    let st5 := if initV = .undef then st4 else p8AccSet f st4 accId initV
    match aGet st5.accs accId with
    | some A => putAcc st5 accId { A with initial := false }
    | none => st5
termination_by structural f _ _ _ _ _ _ => f

end

/-- Lines 272-293 of `part_008`: `#prepareConfig` on a configuration array.
Walking from the last configuration to the first: every configuration gets a
default target when missing; for every non-terminal index the endpoint is
overwritten with the following configuration's target; the last endpoint
defaults to a fresh empty object when unset.  (On an empty array the source
would fault on `config[length - 1]`; the claims quantify over nonempty
chains.) -/
def p8PrepareChain : List RegOpts → St → List RegOpts × St
  | [], st => ([], st)
  | [c], st =>
    let t := resolveObj st c.target
    let e := resolveObj t.2 c.endpoint
    ([(c.withTarget (some t.1)).withEndpoint (some e.1)], e.2)
  | c :: c1 :: rest, st =>
    let pr := p8PrepareChain (c1 :: rest) st
    let t := resolveObj pr.2 c.target
    match pr.1 with
    | next :: _ => (((c.withTarget (some t.1)).withEndpoint next.target) :: pr.1, t.2)
    | [] => (((c.withTarget (some t.1)).withEndpoint none) :: pr.1, t.2)

/-- Lines 154-165: `#registerGeneric` registers the key once per
configuration of the chain, in order. -/
def p8RegisterGeneric (f : Nat) (key : JsKey) (initV : JsVal) (configs : List RegOpts)
    (recursive : Bool) (st : St) : St :=
  configs.foldl (fun s opts => p8Register f s key initV opts recursive [key]) st

/-- Lines 294-300: `#getDataFromConfigs` — the chain's leaf endpoint, its
first target, and the list of all targets. -/
def p8GetData (configs : List RegOpts) : Option Nat × Option Nat × List (Option Nat) :=
  ((configs.getLast?).bind (·.endpoint), (configs.head?).bind (·.target), configs.map (·.target))

/-- Static `registerRecursive` of the chain variant for a single key and a
configuration array. -/
def p8StaticRegisterRecursive (f : Nat) (key : JsKey) (initV : JsVal)
    (chain : List RegOpts) (st : St) : (Option Nat × Option Nat × List (Option Nat)) × St :=
  let pr := p8PrepareChain chain st
  let st2 := p8RegisterGeneric f key initV pr.1 true pr.2
  (p8GetData pr.1, st2)

/-- `Math.round(i / m)` for integers with `m > 0` (round half away from
zero upward, as `Math.round` does for the values in scope). -/
def jsRoundDiv (i m : Int) : Int := (2 * i + m).fdiv (2 * m)

/-- The getter hook `({ val }) => Math.round(val / m) * m` of Scenario C
(non-numbers would produce `NaN`). -/
def roundToHook (m : Int) : GetterHook := fun v _ =>
  match v with
  | .numV (.int i) => .numV (.int (jsRoundDiv i m * m))
  | _ => .numV .nan

/-! ## The first JavaScript variant (`src/script/ReactiveStorage.js`)

Embedded here: the runtime argument checks at the registration entry points
(lines 73-80 and 113-118) and the static helper `#addInfiniteDepth`
(lines 246-252). -/

/-- The single user-facing error kind (`ReactiveStorageError`). -/
inductive RsError : Type where
  | invalidArgument
deriving DecidableEq, Repr

/-- Line 74: `typeof key !== "string" && typeof key !== "number" &&
typeof key !== "symbol"`. -/
def jsIsValidKeyType (k : JsVal) : Bool :=
  k.typeofV = .stringT || k.typeofV = .numberT || k.typeofV = .symbolT

/-- The boundary of the instance `register` / `registerRecursive`
(lines 73-76 and 94-97): raise `InvalidArgument` for a key that is not of a
primitive key type, before any other work. -/
def jsInstanceRegisterBoundary (key : JsVal) : Option RsError :=
  if jsIsValidKeyType key then none else some .invalidArgument

/-- The boundary of the static `register` / `registerRecursive`
(lines 113-118 and 132-138): raise `InvalidArgument` when
`typeof target !== "object"`.  The key argument is not validated there. -/
def jsStaticRegisterBoundary (target _key : JsVal) : Option RsError :=
  if target.typeofV = .objectT then none else some .invalidArgument

/-- Claim-side predicate (from the words of C8): a primitive key type is a
string, a number or a symbol. -/
def claimIsPrimitiveKey : JsVal → Bool
  | .strV _ => true
  | .numV _ => true
  | .symV _ => true
  | _ => false

/-- Claim-side predicate (from the words of C8): a value that is actually an
object/container, i.e. a reference to an object (`null` is no container). -/
def claimIsContainer : JsVal → Bool
  | .ref _ => true
  | _ => false

/-- The walk of `#addInfiniteDepth` once it has entered the loop (the loop
guard `typeof options.depth === "object"` tests the *top-level* depth, so the
walk follows nested `depth` fields while they are non-nullish).  Stopping at
a configuration whose `depth` is nullish assigns `Infinity` there; stepping
into a *number* makes the subsequent assignment a property write on a
primitive, which throws a `TypeError` in strict mode (ES modules), modelled
as the error case.  The source also guards `deepOptions !== deepOptions.depth`
against a self-referential configuration, which cannot arise in this tree
model. -/
def addInfWalk : RegOpts → Except Unit RegOpts
  | .mk t e fl en none g s p => .ok (.mk t e fl en (some (.inl .inf)) g s p)
  | .mk _ _ _ _ (some (.inl _)) _ _ _ => .error ()
  | .mk t e fl en (some (.inr c1)) g s p =>
    (addInfWalk c1).map (fun c1x => .mk t e fl en (some (.inr c1x)) g s p)

/-- Lines 246-252: `#addInfiniteDepth`.  When the top-level `depth` is not a
configuration object the loop never runs and the top-level `depth` is
overwritten with `Infinity`; otherwise the walk above runs. -/
def addInfiniteDepth (o : RegOpts) : Except Unit RegOpts :=
  if depthIsObject o.depth then addInfWalk o
  else .ok (o.withDepth (some (.inl .inf)))

/-- Observation helper: read `targets[i][k]` from the data returned by a
chain-variant registration. -/
def targetRead (f : Nat) (st : St) (targets : List (Option Nat)) (i : Nat) (k : JsKey) : JsVal :=
  match targets[i]? with
  | some (some a) => p8GetProp f st a k
  | _ => (.undef)

/-! ## Scenario for claim C1 (TS variant, depth mirroring)

Initial store: object 0 is the value `{a: 3}` about to be registered.  The
intermediate and final states of the registration run are spelled out as
literals so that each evaluation step of the proof works on fully evaluated
states. -/

/-- The value `{a: 3}` in an otherwise empty store. -/
def c1st0 : St := ⟨[(0, ⟨.plain, [(.str "a", ⟨true, .data (.numV (.int 3))⟩)]⟩)], [], 1, []⟩

/-- Depth options derived at the top level of the C1 run
(`{depth: Infinity}`). -/
def c1D1 : RegOpts := .mk none none none none (some (.inl .inf)) none none false

/-- Depth options of the C1 run after the expander assigned the fresh deep
target (object 4).  Because `hasCustomDepthEndpoint` is truthy in this run,
the `endpoint` field is never assigned. -/
def c1D2 : RegOpts := .mk (some 4) none none none (some (.inl .inf)) none none false

/-- The C1 run state just before the eager initial write: target 1 carries
the accessor, endpoint 2 is still empty. -/
def c1st4 : St :=
  ⟨[(0, ⟨.plain, [(.str "a", ⟨true, .data (.numV (.int 3))⟩)]⟩),
    (1, ⟨.plain, [(.str "k", ⟨true, .acc 3⟩)]⟩),
    (2, ⟨.plain, []⟩)],
   [(3, ⟨2, .str "k", [.str "k"], none, none, none, false, .objectLiteralOrArray,
        some c1D1, true, true, true⟩)], 4, []⟩

/-- The C1 run state after the initial write ran through the set accessor:
the endpoint holds `k: {a: 3}` (a reference to object 0), the expander built
the deep target (object 4) whose key `a` is an accessor bound to the *fresh*
endpoint object 5 — not to object 0 of the backing hierarchy. -/
def c1postSet : St :=
  ⟨[(0, ⟨.plain, [(.str "a", ⟨true, .data (.numV (.int 3))⟩)]⟩),
    (1, ⟨.plain, [(.str "k", ⟨true, .acc 3⟩)]⟩),
    (2, ⟨.plain, [(.str "k", ⟨true, .data (.ref 0)⟩)]⟩),
    (4, ⟨.plain, [(.str "a", ⟨true, .acc 6⟩)]⟩),
    (5, ⟨.plain, [(.str "a", ⟨true, .data (.numV (.int 3))⟩)]⟩)],
   [(3, ⟨2, .str "k", [.str "k"], some 4, none, none, false, .objectLiteralOrArray,
        some c1D2, true, true, true⟩),
    (6, ⟨5, .str "a", [.str "k", .str "a"], none, none, none, false, .objectLiteralOrArray,
        some c1D1, true, false, true⟩)], 7, []⟩

/-- The final state of the C1 registration (the `initial` flag of the top
accessor cleared). -/
def c1fin : St :=
  ⟨[(0, ⟨.plain, [(.str "a", ⟨true, .data (.numV (.int 3))⟩)]⟩),
    (1, ⟨.plain, [(.str "k", ⟨true, .acc 3⟩)]⟩),
    (2, ⟨.plain, [(.str "k", ⟨true, .data (.ref 0)⟩)]⟩),
    (4, ⟨.plain, [(.str "a", ⟨true, .acc 6⟩)]⟩),
    (5, ⟨.plain, [(.str "a", ⟨true, .data (.numV (.int 3))⟩)]⟩)],
   [(3, ⟨2, .str "k", [.str "k"], some 4, none, none, false, .objectLiteralOrArray,
        some c1D2, true, false, true⟩),
    (6, ⟨5, .str "a", [.str "k", .str "a"], none, none, none, false, .objectLiteralOrArray,
        some c1D1, true, false, true⟩)], 7, []⟩

/-- The C1 final state after the direct backing mutation
`backing.k.a = 99` (a raw data write on object 0, bypassing all accessors). -/
def c1mut : St := tsSetProp 8 c1fin 0 (.str "a") (.numV (.int 99))

/-- The definition chain of Scenario C: stage 1 rounds reads to the nearest
50, stage 2 to the nearest 5. -/
def c4chain : List RegOpts :=
  [RegOpts.mk none none none none none (some (roundToHook 50)) none false,
   RegOpts.mk none none none none none (some (roundToHook 5)) none false]

/-- The chain-variant run of Scenario C: `registerRecursive("value", 62)` on
the two-stage chain. -/
def c4run : (Option Nat × Option Nat × List (Option Nat)) × St :=
  p8StaticRegisterRecursive 12 (.str "value") (.numV (.int 62)) c4chain St.empty

/-! ## Shape lemmas for writes into a plain endpoint slot

These drive the symbolic execution of registration scenarios whose setter
hooks are arbitrary: a hook may call the provided default setter any number
of times, so the model folds an arbitrary list of writes into the endpoint
slot.  As long as the endpoint is a plain (non-`Map`) object whose slot for
the key holds no accessor, such writes touch nothing but that slot. -/

/-- The endpoint `e` is a plain object whose property at `k` is a data slot
or absent (so a slot write cannot re-enter an accessor). -/
def plainSlotAt (st : St) (e : Nat) (k : JsKey) : Prop :=
  ∃ o, aGet st.heap e = some o ∧ o.kind ≠ ObjKind.mapk ∧
    (aGet o.props k = none ∨ ∃ en w, aGet o.props k = some ⟨en, .data w⟩)

/-! ## Scenario states for the TS-variant claims

All TS-variant scenarios register a single key on default stores: the
prepared configuration allocates target 0 and endpoint 1, and the accessor
table entry is 2.  `accOf` is the accessor state such a registration
installs: endpoint 1, path `[k]`, plain slot reader, a configured setter
hook, no getter hook, default depth filter. -/

/-- Accessor state of a single-key registration on default stores. -/
def accOf (k : JsKey) (h : SetterHook) (ph : Bool) (dop : Option RegOpts) (hc : Bool)
    (ini : Bool) : AccSt :=
  ⟨1, k, [k], none, none, some h, ph, .objectLiteralOrArray, dop, hc, ini, false⟩

/-- Scenario state right after the accessor is installed, before the eager
initial write (`initial` still true). -/
def scenPre (k : JsKey) (h : SetterHook) (ph : Bool) (dop : Option RegOpts) (hc : Bool) : St :=
  ⟨[(0, ⟨.plain, [(k, ⟨true, .acc 2⟩)]⟩), (1, ⟨.plain, []⟩)],
   [(2, accOf k h ph dop hc true)], 3, []⟩

/-- Scenario state of a completed registration with no initial write. -/
def scenReg (k : JsKey) (h : SetterHook) (ph : Bool) (dop : Option RegOpts) (hc : Bool) : St :=
  ⟨[(0, ⟨.plain, [(k, ⟨true, .acc 2⟩)]⟩), (1, ⟨.plain, []⟩)],
   [(2, accOf k h ph dop hc false)], 3, []⟩

/-- Setter-only configuration (claims C5 and C6). -/
def cfgSetterOnly (h : SetterHook) : RegOpts := .mk none none none none none none (some h) false

/-- Configuration of claim C10: a setter hook, a postSetter, and
`depth: Infinity` with the default filter. -/
def cfgC10 (h : SetterHook) : RegOpts :=
  .mk none none none none (some (.inl .inf)) none (some h) true

/-- The depth options derived from `cfgC10` (hooks inherited, depth still
infinite). -/
def dOptsC10 (h : SetterHook) : RegOpts :=
  .mk none none none none (some (.inl .inf)) none (some h) true

/-- Claim-side predicate (from the words of C7): a primitive value is any
value that is not an object reference (`null` and `undefined` included). -/
def jsPrimitive : JsVal → Bool
  | .ref _ => false
  | _ => true

/-- A configuration with no hooks, the default filter and an arbitrary
`depth` option (the amended scope of claim C7). -/
def cfg7 (d : Option (JsNum ⊕ RegOpts)) : RegOpts :=
  .mk none none none none d none none false

/-- Accessor state installed by a single-key registration of `cfg7` on
default stores. -/
def acc7 (k : JsKey) (d : Option (JsNum ⊕ RegOpts)) (ini : Bool) : AccSt :=
  ⟨1, k, [k], none, none, none, false, .objectLiteralOrArray,
    (tsMkDepthOpts (RegOpts.mk (some 0) (some 1) none none d none none false) false).1,
    (tsMkDepthOpts (RegOpts.mk (some 0) (some 1) none none d none none false) false).2,
    ini, false⟩

/-- State right after `cfg7`'s accessor is installed (`initial` true). -/
def st7Pre (k : JsKey) (d : Option (JsNum ⊕ RegOpts)) : St :=
  ⟨[(0, ⟨.plain, [(k, ⟨true, .acc 2⟩)]⟩), (1, ⟨.plain, []⟩)],
   [(2, acc7 k d true)], 3, []⟩

/-- State of a completed `cfg7` registration with no initial write. -/
def st7Reg (k : JsKey) (d : Option (JsNum ⊕ RegOpts)) : St :=
  ⟨[(0, ⟨.plain, [(k, ⟨true, .acc 2⟩)]⟩), (1, ⟨.plain, []⟩)],
   [(2, acc7 k d false)], 3, []⟩

/-! ## Theorems -/

@[simp] theorem aGet_nil {κ α : Type} [DecidableEq κ] (k : κ) :
    aGet ([] : List (κ × α)) k = none := rfl

@[simp] theorem aGet_cons {κ α : Type} [DecidableEq κ] (k0 k : κ) (v0 : α) (t : List (κ × α)) :
    aGet ((k0, v0) :: t) k = if k0 = k then some v0 else aGet t k := rfl

@[simp] theorem aGet_aSet_self {κ α : Type} [DecidableEq κ] (l : List (κ × α)) (k : κ) (v : α) :
    aGet (aSet l k v) k = some v := by
  induction l with
  | nil => simp [aGet, aSet]
  | cons h t ih =>
    obtain ⟨k0, v0⟩ := h
    by_cases hk : k0 = k <;> simp [aGet, aSet, hk, ih]

@[simp] theorem aGet_aSet_ne {κ α : Type} [DecidableEq κ] (l : List (κ × α)) (k k1 : κ) (v : α)
    (hne : k ≠ k1) : aGet (aSet l k v) k1 = aGet l k1 := by
  induction l with
  | nil => simp [aGet, aSet, hne]
  | cons h t ih =>
    obtain ⟨k0, v0⟩ := h
    by_cases hk : k0 = k
    · subst hk; simp [aGet, aSet, hne]
    · simp only [aSet, if_neg hk, aGet_cons]
      by_cases hk1 : k0 = k1 <;> simp [hk1, ih]

@[simp] theorem aGet_aDel_self {κ α : Type} [DecidableEq κ] (l : List (κ × α)) (k : κ) :
    aGet (aDel l k) k = none := by
  induction l with
  | nil => simp [aGet, aDel]
  | cons h t ih =>
    obtain ⟨k0, v0⟩ := h
    by_cases hk : k0 = k <;> simp [aDel, aGet, hk, ih]

@[simp] theorem aGet_aDel_ne {κ α : Type} [DecidableEq κ] (l : List (κ × α)) (k k1 : κ)
    (hne : k ≠ k1) : aGet (aDel l k) k1 = aGet l k1 := by
  induction l with
  | nil => simp [aGet, aDel]
  | cons h t ih =>
    obtain ⟨k0, v0⟩ := h
    by_cases hk : k0 = k
    · subst hk; simp [aDel, aGet, hne, ih]
    · by_cases hk1 : k0 = k1 <;> simp [aDel, aGet, hk, hk1, ih, Ne.symm hne]

/-! ## Helper lemmas -/

theorem c1_accset_eq : tsAccSet 7 c1st4 3 (.ref 0) = c1postSet := by
  rfl

set_option maxHeartbeats 1000000 in
theorem c1_run_eq :
    tsRegisterGeneric 8 (.str "k") (.ref 0) RegOpts.empty true c1st0 = ((1, 2), c1fin) := by
  simp only [tsRegisterGeneric, tsPrepareConfig, tsRegister, resolveObj, allocObj, putProp,
    putAcc, tsMkDepthOpts, depthTruthy, JsNum.truthy, RegOpts.empty, RegOpts.withTarget,
    RegOpts.withEndpoint, RegOpts.target, RegOpts.endpoint, RegOpts.depthFilter,
    RegOpts.enumerable, RegOpts.depth, RegOpts.getterH, RegOpts.setterH, RegOpts.postH,
    RegOpts.withDepth, aGet, aSet, c1st0, Option.getD, c1st4, c1D1, c1_accset_eq,
    reduceIte]
  rfl

/-! ## Claim theorems (C1, C2, C4) -/

/-- C1: depth mirroring with shared nested identity fails on the code of
`ReactiveStorage.ts`.  Registering the depth-filter-eligible object
`{a: 3}` (object 0) under key "k" with infinite depth and default stores
yields `front.k.a = 3` and `backing.k.a = 3` as the claim states; but after
the direct mutation `backing.k.a = 99` (a raw data write on object 0,
bypassing the front accessors), `front.k.a` still reads `3` instead of the
newly written value: `hasCustomDepthEndpoint` is computed as
`!!depthOpts.depth` — truthy whenever further depth remains — so the depth
expander never reuses the just-written object of the backing hierarchy and
binds the nested accessor to a fresh, disjoint endpoint (object 5 in
`c1postSet`). -/
theorem c1_ts_depth_backing_not_shared :
    (tsRegisterGeneric 8 (.str "k") (.ref 0) RegOpts.empty true c1st0).1 = (1, 2) ∧
    readPath 8 (tsRegisterGeneric 8 (.str "k") (.ref 0) RegOpts.empty true c1st0).2
      (.ref 1) [.str "k", .str "a"] = .numV (.int 3) ∧
    readPath 8 (tsRegisterGeneric 8 (.str "k") (.ref 0) RegOpts.empty true c1st0).2
      (.ref 2) [.str "k", .str "a"] = .numV (.int 3) ∧
    readPath 8 (tsSetProp 8 (tsRegisterGeneric 8 (.str "k") (.ref 0) RegOpts.empty true c1st0).2
        0 (.str "a") (.numV (.int 99)))
      (.ref 2) [.str "k", .str "a"] = .numV (.int 99) ∧
    readPath 8 (tsSetProp 8 (tsRegisterGeneric 8 (.str "k") (.ref 0) RegOpts.empty true c1st0).2
        0 (.str "a") (.numV (.int 99)))
      (.ref 1) [.str "k", .str "a"] = .numV (.int 3) := by
  rw [c1_run_eq]
  exact ⟨rfl, rfl, rfl, rfl, rfl⟩

/-- C2: `#addInfiniteDepth` of `ReactiveStorage.js` faults instead of
splicing when the deepest nested configuration node carries a numeric depth:
on `{depth: {depth: 5}}` the walk steps into the number `5` and the final
assignment `deepOptions.depth = Infinity` is a property write on a primitive
(a `TypeError` in strict mode), modelled as the error case.  The two
well-behaved cases of the claim are included: a purely numeric top-level
depth is overwritten with `Infinity` at the top, and a nested configuration
node with no further depth receives `Infinity` with its explicitly
configured hooks preserved. -/
theorem c2_addInfiniteDepth_numeric_nested_depth_faults :
    addInfiniteDepth
      (RegOpts.empty.withDepth (some (.inr (RegOpts.empty.withDepth (some (.inl (.int 5)))))))
      = .error () ∧
    addInfiniteDepth (RegOpts.empty.withDepth (some (.inl (.int 3))))
      = .ok (RegOpts.empty.withDepth (some (.inl .inf))) ∧
    addInfiniteDepth
      (RegOpts.empty.withDepth (some (.inr (RegOpts.mk none none none none none none none true))))
      = .ok (RegOpts.empty.withDepth
          (some (.inr (RegOpts.mk none none none none (some (.inl .inf)) none none true)))) := by
  exact ⟨rfl, rfl, rfl⟩

/-- C4: on the two-stage definition chain of Scenario C with initial value
62, `targets[1].value` reads 60 (second getter: 62 rounded to the nearest 5)
and `targets[0].value` reads 50 (the first stage reads 60 through the second
stage, then rounds to the nearest 50). -/
theorem c4_two_stage_chain_getter_composition :
    targetRead 12 c4run.2 c4run.1.2.2 1 (.str "value") = .numV (.int 60) ∧
    targetRead 12 c4run.2 c4run.1.2.2 0 (.str "value") = .numV (.int 50) := by
  exact ⟨rfl, rfl⟩

/-! ## Lemmas about `delProp` -/

theorem delProp_lookup_self (st : St) (a : Nat) (k : JsKey) (o : JsObj)
    (ho : aGet (delProp st a k).heap a = some o) : aGet o.props k = none := by
  rcases h : aGet st.heap a with _ | o0
  · simp only [delProp, h] at ho
    cases ho
  · simp only [delProp, h] at ho
    rw [aGet_aSet_self] at ho
    cases ho
    exact aGet_aDel_self _ _

theorem delProp_lookup_other (st : St) (a b : Nat) (k : JsKey) (h : a ≠ b) :
    aGet (delProp st a k).heap b = aGet st.heap b := by
  rcases hh : aGet st.heap a with _ | o
  · simp [delProp, hh]
  · simp only [delProp, hh]
    exact aGet_aSet_ne _ _ _ _ h

theorem tsHas_delProp_self (st : St) (a : Nat) (k : JsKey) :
    tsHas (delProp st a k) a k = false := by
  rcases h : aGet st.heap a with _ | o
  · simp [tsHas, delProp, h]
  · simp [tsHas, delProp, h]

theorem tsDelete_endpoint_step (st : St) (e : Nat) (k : JsKey) :
    (match aGet st.heap e with
     | some o => if o.kind = ObjKind.mapk then delProp st e k else delProp st e k
     | none => st) = delProp st e k := by
  rcases h : aGet st.heap e with _ | o
  · simp [delProp, h]
  · simp [h, ite_self]

theorem tsDelete_pos (st : St) (t e : Nat) (k : JsKey) (hhas : tsHas st t k = true) :
    tsDelete st t e k = (true, delProp (delProp st e k) t k) := by
  unfold tsDelete
  rw [hhas]
  simp only [if_true, tsDelete_endpoint_step]

/-- C9: delete postcondition.  On any instance state, if `k` is registered
(an own property of the front object `t`), `delete` returns true, `has`
becomes false and `k` is an own property of neither the front object nor the
top-level backing store `e` (of either kind); if `k` is not registered,
`delete` returns false and the state is unchanged. -/
theorem c9_delete_postcondition (st : St) (t e : Nat) (k : JsKey) :
    (tsHas st t k = true →
      (tsDelete st t e k).1 = true ∧
      tsHas (tsDelete st t e k).2 t k = false ∧
      (∀ o, aGet (tsDelete st t e k).2.heap t = some o → aGet o.props k = none) ∧
      (∀ o, aGet (tsDelete st t e k).2.heap e = some o → aGet o.props k = none)) ∧
    (tsHas st t k = false →
      (tsDelete st t e k).1 = false ∧ (tsDelete st t e k).2 = st) := by
  constructor
  · intro hhas
    rw [tsDelete_pos st t e k hhas]
    refine ⟨rfl, tsHas_delProp_self _ _ _, fun o ho => delProp_lookup_self _ _ _ _ ho, ?_⟩
    intro o ho
    by_cases het : e = t
    · subst het
      exact delProp_lookup_self _ _ _ _ ho
    · rw [delProp_lookup_other _ _ _ _ (fun hh => het hh.symm)] at ho
      exact delProp_lookup_self _ _ _ _ ho
  · intro hno
    simp [tsDelete, hno]

/-- Witness for C9 on a concrete instance: a store whose front object 0 has
the registered key "foo" (accessor 2) and whose backing store 1 holds its
value, plus an unregistered key "nope". -/
theorem c9_delete_postcondition_witness :
    (let st : St := ⟨[(0, ⟨.plain, [(.str "foo", ⟨true, .acc 2⟩)]⟩),
                     (1, ⟨.plain, [(.str "foo", ⟨true, .data (.numV (.int 6))⟩)]⟩)], [], 3, []⟩
    (tsDelete st 0 1 (.str "foo")).1 = true ∧
    tsHas (tsDelete st 0 1 (.str "foo")).2 0 (.str "foo") = false ∧
    (tsDelete st 0 1 (.str "nope")).1 = false) := by
  refine ⟨?_, ?_, ?_⟩
  · exact ((c9_delete_postcondition _ 0 1 (.str "foo")).1 (by decide)).1
  · exact ((c9_delete_postcondition _ 0 1 (.str "foo")).1 (by decide)).2.1
  · exact ((c9_delete_postcondition _ 0 1 (.str "nope")).2 (by decide)).1

theorem tsSlotWrite_plain_shape (f : Nat) (st : St) (e : Nat) (k : JsKey) (w : JsVal)
    (h : plainSlotAt st e k) :
    (tsSlotWrite (f + 1 + 1) st e k w).events = st.events ∧
    (tsSlotWrite (f + 1 + 1) st e k w).accs = st.accs ∧
    (tsSlotWrite (f + 1 + 1) st e k w).nxt = st.nxt ∧
    (∀ b, b ≠ e → aGet (tsSlotWrite (f + 1 + 1) st e k w).heap b = aGet st.heap b) ∧
    (∃ o2, aGet (tsSlotWrite (f + 1 + 1) st e k w).heap e = some o2 ∧
      o2.kind ≠ ObjKind.mapk ∧ ∃ en, aGet o2.props k = some ⟨en, .data w⟩) := by
  obtain ⟨o, ho, hk, hdat⟩ := h
  have hself : ∀ (s2 : Slot),
      aGet (aSet st.heap e ⟨o.kind, aSet o.props k s2⟩) e = some ⟨o.kind, aSet o.props k s2⟩ :=
    fun s2 => aGet_aSet_self _ _ _
  rcases hdat with hnone | ⟨en, w0, hsome⟩
  · simp only [tsSlotWrite, tsSetProp, ho, hk, if_neg, hnone]
    refine ⟨rfl, rfl, rfl, ?_, ?_⟩
    · intro b hb
      exact aGet_aSet_ne _ _ _ _ (fun hh => hb hh.symm)
    · exact ⟨_, aGet_aSet_self _ _ _, hk, true, aGet_aSet_self _ _ _⟩
  · simp only [tsSlotWrite, tsSetProp, ho, hk, if_neg, hsome]
    refine ⟨rfl, rfl, rfl, ?_, ?_⟩
    · intro b hb
      exact aGet_aSet_ne _ _ _ _ (fun hh => hb hh.symm)
    · exact ⟨_, aGet_aSet_self _ _ _, hk, en, aGet_aSet_self _ _ _⟩

theorem tsSlotWrite_plainSlotAt (f : Nat) (st : St) (e : Nat) (k : JsKey) (w : JsVal)
    (h : plainSlotAt st e k) : plainSlotAt (tsSlotWrite (f + 1 + 1) st e k w) e k := by
  obtain ⟨-, -, -, -, o2, ho2, hk2, en, hen⟩ := tsSlotWrite_plain_shape f st e k w h
  exact ⟨o2, ho2, hk2, Or.inr ⟨en, w, hen⟩⟩

theorem tsSlotRead_plain_data (f : Nat) (st : St) (e : Nat) (k : JsKey) (o : JsObj)
    (en : Bool) (w : JsVal) (ho : aGet st.heap e = some o) (hk : o.kind ≠ ObjKind.mapk)
    (hs : aGet o.props k = some ⟨en, .data w⟩) :
    tsSlotRead (f + 1 + 1) st e k = w := by
  simp only [tsSlotRead, tsGetProp, ho, hk, if_neg, hs]
  split <;> rfl

theorem tsSlotRead_plain_absent (f : Nat) (st : St) (e : Nat) (k : JsKey) (o : JsObj)
    (ho : aGet st.heap e = some o) (hk : o.kind ≠ ObjKind.mapk)
    (hs : aGet o.props k = none) :
    tsSlotRead (f + 1 + 1) st e k = .undef := by
  simp only [tsSlotRead, tsGetProp, ho, hk, if_neg, hs]
  split <;> rfl

theorem foldWrites_shape (f : Nat) (e : Nat) (k : JsKey) (ws : List JsVal) (st : St)
    (h : plainSlotAt st e k) :
    (ws.foldl (fun s w => tsSlotWrite (f + 1 + 1) s e k w) st).events = st.events ∧
    (ws.foldl (fun s w => tsSlotWrite (f + 1 + 1) s e k w) st).accs = st.accs ∧
    (ws.foldl (fun s w => tsSlotWrite (f + 1 + 1) s e k w) st).nxt = st.nxt ∧
    (∀ b, b ≠ e →
      aGet (ws.foldl (fun s w => tsSlotWrite (f + 1 + 1) s e k w) st).heap b = aGet st.heap b) ∧
    plainSlotAt (ws.foldl (fun s w => tsSlotWrite (f + 1 + 1) s e k w) st) e k := by
  induction ws generalizing st with
  | nil => exact ⟨rfl, rfl, rfl, fun b _ => rfl, h⟩
  | cons w t ih =>
    obtain ⟨he, ha, hn, hb, ho2, hho2, hk2, en, hen⟩ := tsSlotWrite_plain_shape f st e k w h
    have hplain := tsSlotWrite_plainSlotAt f st e k w h
    obtain ⟨ihe, iha, ihn, ihb, ihp⟩ := ih _ hplain
    refine ⟨by rw [List.foldl_cons, ihe, he], by rw [List.foldl_cons, iha, ha],
      by rw [List.foldl_cons, ihn, hn], ?_, by rw [List.foldl_cons]; exact ihp⟩
    intro b hb1
    rw [List.foldl_cons, ihb b hb1, hb b hb1]

theorem tsSlotWrite_plain_shape10 (st : St) (e : Nat) (k : JsKey) (w : JsVal)
    (h : plainSlotAt st e k) :
    (tsSlotWrite 10 st e k w).events = st.events ∧
    (tsSlotWrite 10 st e k w).accs = st.accs ∧
    (tsSlotWrite 10 st e k w).nxt = st.nxt ∧
    (∀ b, b ≠ e → aGet (tsSlotWrite 10 st e k w).heap b = aGet st.heap b) ∧
    (∃ o2, aGet (tsSlotWrite 10 st e k w).heap e = some o2 ∧
      o2.kind ≠ ObjKind.mapk ∧ ∃ en, aGet o2.props k = some ⟨en, .data w⟩) :=
  tsSlotWrite_plain_shape 8 st e k w h

theorem foldWrites_shape10 (e : Nat) (k : JsKey) (ws : List JsVal) (st : St)
    (h : plainSlotAt st e k) :
    (ws.foldl (fun s w => tsSlotWrite 10 s e k w) st).events = st.events ∧
    (ws.foldl (fun s w => tsSlotWrite 10 s e k w) st).accs = st.accs ∧
    (ws.foldl (fun s w => tsSlotWrite 10 s e k w) st).nxt = st.nxt ∧
    (∀ b, b ≠ e →
      aGet (ws.foldl (fun s w => tsSlotWrite 10 s e k w) st).heap b = aGet st.heap b) ∧
    plainSlotAt (ws.foldl (fun s w => tsSlotWrite 10 s e k w) st) e k :=
  foldWrites_shape 8 e k ws st h

theorem scenAccSet (k : JsKey) (h : SetterHook) (v : JsVal) (st : St) (ph : Bool)
    (dop : Option RegOpts) (hc : Bool) (ini : Bool)
    (hacc : st.accs = [(2, accOf k h ph dop hc ini)])
    (hps : plainSlotAt st 1 k)
    (hnoexp : dop = none ∨ v.typeofObject = false) :
    (tsAccSet 11 st 2 v).events =
      (if ph then [Ev.postE [k] v (tsSlotRead 9 st 1 k) ini] else []) ++
        (Ev.setE [k] v (tsSlotRead 9 st 1 k) ini :: st.events) ∧
    (tsAccSet 11 st 2 v).accs = [(2, accOf k h ph dop hc ini)] ∧
    (∀ b, b ≠ 1 → aGet (tsAccSet 11 st 2 v).heap b = aGet st.heap b) ∧
    plainSlotAt (tsAccSet 11 st 2 v) 1 k ∧
    ((h ⟨v, tsSlotRead 9 st 1 k, ini, [k]⟩).handled = false →
      ∀ g, 2 ≤ g → tsSlotRead g (tsAccSet 11 st 2 v) 1 k = v) ∧
    (∀ w, h ⟨v, tsSlotRead 9 st 1 k, ini, [k]⟩ = ⟨[w], true⟩ →
      ∀ g, 2 ≤ g → tsSlotRead g (tsAccSet 11 st 2 v) 1 k = w) := by
  have hA : aGet st.accs 2 = some (accOf k h ph dop hc ini) := by
    rw [hacc]; simp [aGet]
  have hbody : tsAccSet 11 st 2 v =
      (let st1 := logEv st (.setE [k] v (tsSlotRead 9 st 1 k) ini)
       let resp := h ⟨v, tsSlotRead 9 st 1 k, ini, [k]⟩
       let fold := resp.writes.foldl (fun s w => tsSlotWrite 10 s 1 k w) st1
       let st2 := if resp.handled then fold else tsSlotWrite 10 fold 1 k v
       let st3 := setDeep st2 2 none
       if ph then logEv st3 (.postE [k] v (tsSlotRead 9 st 1 k) ini) else st3) := by
    rcases hnoexp with hdnone | ht
    · subst hdnone
      simp only [tsAccSet, hA, tsRawGet, accOf, tsExpand]
    · simp only [tsAccSet, hA, tsRawGet, accOf, tsExpand, ht]
      rcases dop with _ | D
      · rfl
      · simp only [Bool.false_and]
        rfl
  rw [hbody]
  have hps1 : plainSlotAt (logEv st (.setE [k] v (tsSlotRead 9 st 1 k) ini)) 1 k := hps
  obtain ⟨hfe, hfa, hfn, hfb, hfp⟩ := foldWrites_shape10 1 k
    (h ⟨v, tsSlotRead 9 st 1 k, ini, [k]⟩).writes
    (logEv st (.setE [k] v (tsSlotRead 9 st 1 k) ini)) hps1
  -- the getter reset collapses to a pure accessor-table update
  have hdec :
      ∀ st2 : St, st2.accs = st.accs →
        setDeep st2 2 none = { st2 with accs := [(2, accOf k h ph dop hc ini)] } := by
    intro st2 ha2
    have hget : aGet st2.accs 2 = some (accOf k h ph dop hc ini) := by
      rw [ha2]; exact hA
    simp only [setDeep, hget, putAcc, ha2, hacc]
    simp [aSet, accOf]
  rcases hhd : (h ⟨v, tsSlotRead 9 st 1 k, ini, [k]⟩).handled with _ | _
  · -- not handled: the default backing write of v runs after the hook writes
    simp only [hhd, Bool.false_eq_true, if_false]
    obtain ⟨hwe, hwa, hwn, hwb, o2, ho2, hk2, en2, hsl2⟩ := tsSlotWrite_plain_shape10 _ 1 k v hfp
    have hsd3 := hdec _ (by rw [hwa, hfa]; rfl)
    rw [hsd3]
    cases ph
    · refine ⟨hwe.trans hfe, rfl, fun b hb => (hwb b hb).trans (hfb b hb), ?_, ?_, ?_⟩
      · exact ⟨o2, ho2, hk2, Or.inr ⟨en2, v, hsl2⟩⟩
      · intro _ g hg
        obtain ⟨g2, rfl⟩ : ∃ g2, g = g2 + 1 + 1 := ⟨g - 2, by omega⟩
        exact tsSlotRead_plain_data g2 _ 1 k o2 en2 v ho2 hk2 hsl2
      · intro w hw1
        rw [hw1] at hhd
        simp at hhd
    · refine ⟨?_, rfl, fun b hb => (hwb b hb).trans (hfb b hb), ?_, ?_, ?_⟩
      · show Ev.postE [k] v (tsSlotRead 9 st 1 k) ini :: (tsSlotWrite 10 _ 1 k v).events = _
        rw [hwe, hfe]
        rfl
      · exact ⟨o2, ho2, hk2, Or.inr ⟨en2, v, hsl2⟩⟩
      · intro _ g hg
        obtain ⟨g2, rfl⟩ : ∃ g2, g = g2 + 1 + 1 := ⟨g - 2, by omega⟩
        exact tsSlotRead_plain_data g2 _ 1 k o2 en2 v ho2 hk2 hsl2
      · intro w hw1
        rw [hw1] at hhd
        simp at hhd
  · -- handled: the hook writes stand, no default write
    simp only [hhd, if_true]
    obtain ⟨o2, ho2, hk2, hsl2⟩ := hfp
    have hsd3 := hdec _ (by rw [hfa]; rfl)
    rw [hsd3]
    cases ph
    · refine ⟨hfe, rfl, fun b hb => hfb b hb, ⟨o2, ho2, hk2, hsl2⟩, ?_, ?_⟩
      · intro hfalse
        simp [hhd] at hfalse
      · intro w hw1 g hg
        obtain ⟨g2, rfl⟩ : ∃ g2, g = g2 + 1 + 1 := ⟨g - 2, by omega⟩
        rw [hw1]
        obtain ⟨-, -, -, -, o3, ho3, hk3, en3, hsl3⟩ := tsSlotWrite_plain_shape10
          (logEv st (.setE [k] v (tsSlotRead 9 st 1 k) ini)) 1 k w hps1
        exact tsSlotRead_plain_data g2 _ 1 k o3 en3 w ho3 hk3 hsl3
    · refine ⟨?_, rfl, fun b hb => hfb b hb, ⟨o2, ho2, hk2, hsl2⟩, ?_, ?_⟩
      · show Ev.postE [k] v (tsSlotRead 9 st 1 k) ini :: _ = _
        rw [hfe]
        rfl
      · intro hfalse
        simp [hhd] at hfalse
      · intro w hw1 g hg
        obtain ⟨g2, rfl⟩ : ∃ g2, g = g2 + 1 + 1 := ⟨g - 2, by omega⟩
        rw [hw1]
        obtain ⟨-, -, -, -, o3, ho3, hk3, en3, hsl3⟩ := tsSlotWrite_plain_shape10
          (logEv st (.setE [k] v (tsSlotRead 9 st 1 k) ini)) 1 k w hps1
        exact tsSlotRead_plain_data g2 _ 1 k o3 en3 w ho3 hk3 hsl3

theorem scenRegU (k : JsKey) (h : SetterHook) :
    tsRegisterGeneric 12 k .undef (cfgSetterOnly h) false St.empty
      = ((0, 1), scenReg k h false none false) := rfl

theorem scenRegUC10 (k : JsKey) (h : SetterHook) :
    tsRegisterGeneric 12 k .undef (cfgC10 h) false St.empty
      = ((0, 1), scenReg k h true (some (dOptsC10 h)) true) := rfl

theorem scenDispatch (st : St) (k : JsKey) (v : JsVal)
    (h0 : aGet st.heap 0 = some ⟨.plain, [(k, ⟨true, .acc 2⟩)]⟩) :
    tsSetProp 12 st 0 k v = tsAccSet 11 st 2 v := by
  simp only [tsSetProp, h0]
  simp [aGet]

theorem scenFrontRead (st : St) (k : JsKey) (h : SetterHook) (ph : Bool)
    (dop : Option RegOpts) (hc : Bool)
    (hacc : st.accs = [(2, accOf k h ph dop hc false)])
    (h0 : aGet st.heap 0 = some ⟨.plain, [(k, ⟨true, .acc 2⟩)]⟩) :
    tsGetProp 12 st 0 k = tsSlotRead 9 st 1 k := by
  have hA2 : aGet st.accs 2 = some (accOf k h ph dop hc false) := by
    rw [hacc]; simp [aGet]
  simp only [tsGetProp, h0, tsAccGet]
  simp only [aGet, reduceIte]
  rw [hA2]
  simp [accOf, tsRawGet]

theorem scenPre_plainSlot (k : JsKey) (h : SetterHook) (ph : Bool)
    (dop : Option RegOpts) (hc : Bool) :
    plainSlotAt (scenPre k h ph dop hc) 1 k :=
  ⟨⟨.plain, []⟩, rfl, fun hx => ObjKind.noConfusion hx, Or.inl rfl⟩

theorem scenRegV (k : JsKey) (h : SetterHook) (v : JsVal) (hv : ¬ v = .undef) :
    tsRegisterGeneric 12 k v (cfgSetterOnly h) false St.empty
      = ((0, 1), putAcc (tsAccSet 11 (scenPre k h false none false) 2 v) 2
          (accOf k h false none false false)) := by
  have haccs := (scenAccSet k h v (scenPre k h false none false) false none false true
    rfl (scenPre_plainSlot k h false none false) (Or.inl rfl)).2.1
  have hA5 : aGet (tsAccSet 11 (scenPre k h false none false) 2 v).accs 2
      = some (accOf k h false none false true) := by
    rw [haccs]; simp [aGet]
  simp only [tsRegisterGeneric, tsPrepareConfig, tsRegister, cfgSetterOnly,
    RegOpts.target, RegOpts.endpoint, RegOpts.depthFilter, RegOpts.enumerable,
    RegOpts.depth, RegOpts.getterH, RegOpts.setterH, RegOpts.postH,
    RegOpts.withTarget, RegOpts.withEndpoint, resolveObj, allocObj, St.empty,
    putProp, putAcc, aGet, aSet, tsMkDepthOpts, depthTruthy, Option.getD,
    Bool.or_self, Bool.or_false, Bool.false_or, Bool.false_eq_true,
    reduceIte, Nat.reduceAdd, if_neg hv, if_false]
  rw [show (⟨[(0, ⟨ObjKind.plain, [(k, ⟨true, PropVal.acc 2⟩)]⟩),
        (1, ⟨ObjKind.plain, []⟩)],
      [(2, ⟨1, k, [k], none, none, some h, false, FilterFn.objectLiteralOrArray,
        none, false, true, false⟩)], 3, ([] : List Ev)⟩ : St)
      = scenPre k h false none false from rfl]
  rw [hA5]
  simp [putAcc, accOf, aSet]

theorem scenReg_plainSlot (k : JsKey) (h : SetterHook) (ph : Bool)
    (dop : Option RegOpts) (hc : Bool) :
    plainSlotAt (scenReg k h ph dop hc) 1 k :=
  ⟨⟨.plain, []⟩, rfl, fun hx => ObjKind.noConfusion hx, Or.inl rfl⟩

theorem scenVetoAux (k : JsKey) (h : SetterHook) (v w : JsVal)
    (hw : h ⟨v, .undef, false, [k]⟩ = ⟨[w], true⟩) :
    tsGetProp 12 (tsAccSet 11 (scenReg k h false none false) 2 v) 0 k = w ∧
    tsSlotRead 12 (tsAccSet 11 (scenReg k h false none false) 2 v) 1 k = w := by
  obtain ⟨he, ha, hb, hp, hnv, hsub⟩ := scenAccSet k h v (scenReg k h false none false)
    false none false false rfl (scenReg_plainSlot k h false none false) (Or.inl rfl)
  have hw9 : h ⟨v, tsSlotRead 9 (scenReg k h false none false) 1 k, false, [k]⟩
      = ⟨[w], true⟩ := hw
  have h0G : aGet (tsAccSet 11 (scenReg k h false none false) 2 v).heap 0
      = some ⟨.plain, [(k, ⟨true, .acc 2⟩)]⟩ := (hb 0 (by omega)).trans rfl
  have hfr := scenFrontRead _ k h false none false ha h0G
  exact ⟨hfr.trans (hsub w hw9 9 (by omega)), hsub w hw9 12 (by omega)⟩

/-- **C5** (setter veto with substitution): for a key registered with a
setter hook and no custom getter or depth options, if on an assignment of
`v` the hook calls the provided default setter with a substituted value `w`
and returns a truthy handled signal, then the front property reads `w`, the
backing slot holds `w`, and (when `w ≠ v`) the front no longer reads the
originally assigned `v`: the default backing write of `v` was skipped. -/
theorem c5_setter_veto_substitution (k : JsKey) (h : SetterHook) (v w : JsVal)
    (hw : h ⟨v, .undef, false, [k]⟩ = ⟨[w], true⟩) :
    tsGetProp 12 (tsSetProp 12
      (tsRegisterGeneric 12 k .undef (cfgSetterOnly h) false St.empty).2 0 k v) 0 k = w ∧
    tsSlotRead 12 (tsSetProp 12
      (tsRegisterGeneric 12 k .undef (cfgSetterOnly h) false St.empty).2 0 k v) 1 k = w ∧
    (¬ w = v → ¬ tsGetProp 12 (tsSetProp 12
      (tsRegisterGeneric 12 k .undef (cfgSetterOnly h) false St.empty).2 0 k v) 0 k = v) := by
  have hreg : (tsRegisterGeneric 12 k .undef (cfgSetterOnly h) false St.empty).2
      = scenReg k h false none false := by rw [scenRegU]
  rw [hreg, scenDispatch (scenReg k h false none false) k v rfl]
  obtain ⟨hg, hs⟩ := scenVetoAux k h v w hw
  exact ⟨hg, hs, fun hne hvv => hne (hg.symm.trans hvv)⟩

theorem c5_setter_veto_substitution_witness :
    ((fun _ => ⟨[JsVal.numV (.int 7)], true⟩ : SetterHook)
        ⟨.numV (.int 1), .undef, false, [.str "k"]⟩ = ⟨[JsVal.numV (.int 7)], true⟩) ∧
    tsGetProp 12 (tsSetProp 12
      (tsRegisterGeneric 12 (.str "k") .undef
        (cfgSetterOnly (fun _ => ⟨[JsVal.numV (.int 7)], true⟩)) false St.empty).2
      0 (.str "k") (.numV (.int 1))) 0 (.str "k") = .numV (.int 7) :=
  ⟨rfl, (c5_setter_veto_substitution (.str "k") (fun _ => ⟨[JsVal.numV (.int 7)], true⟩)
    (.numV (.int 1)) (.numV (.int 7)) rfl).1⟩

/-- **C6** (initial-value suppression and the initial flag): registering a
key with an `undefined` initial value logs no setter invocation and leaves
the backing store without the slot, and the front property reads
`undefined`; registering with any defined value — including falsy ones such
as `0`, `false` or `""`, which are only excluded when they are literally
`undefined` — invokes the setter exactly once with `initial = true`, and
every subsequent assignment through the front object invokes it with
`initial = false`. -/
theorem c6_initial_suppression (k : JsKey) (h : SetterHook) :
    ((tsRegisterGeneric 12 k .undef (cfgSetterOnly h) false St.empty).2.events = [] ∧
     aGet (tsRegisterGeneric 12 k .undef (cfgSetterOnly h) false St.empty).2.heap 1
       = some ⟨.plain, []⟩ ∧
     tsGetProp 12 (tsRegisterGeneric 12 k .undef (cfgSetterOnly h) false St.empty).2 0 k
       = .undef) ∧
    ∀ v : JsVal, ¬ v = .undef →
      (tsRegisterGeneric 12 k v (cfgSetterOnly h) false St.empty).2.events
        = [.setE [k] v .undef true] ∧
      ∀ v2 : JsVal,
        (tsSetProp 12 (tsRegisterGeneric 12 k v (cfgSetterOnly h) false St.empty).2
            0 k v2).events
          = [.setE [k] v2
               (tsSlotRead 9 (tsRegisterGeneric 12 k v (cfgSetterOnly h) false St.empty).2
                 1 k) false,
             .setE [k] v .undef true] := by
  have hregU : (tsRegisterGeneric 12 k .undef (cfgSetterOnly h) false St.empty).2
      = scenReg k h false none false := by rw [scenRegU]
  refine ⟨⟨?_, ?_, ?_⟩, ?_⟩
  · rw [hregU]
    rfl
  · rw [hregU]
    rfl
  · rw [hregU, scenFrontRead (scenReg k h false none false) k h false none false rfl rfl]
    rfl
  · intro v hv
    have hV : (tsRegisterGeneric 12 k v (cfgSetterOnly h) false St.empty).2
        = putAcc (tsAccSet 11 (scenPre k h false none false) 2 v) 2
            (accOf k h false none false false) := by rw [scenRegV k h v hv]
    obtain ⟨he, ha, hb, hp, -, -⟩ := scenAccSet k h v (scenPre k h false none false)
      false none false true rfl (scenPre_plainSlot k h false none false) (Or.inl rfl)
    have hEv : (putAcc (tsAccSet 11 (scenPre k h false none false) 2 v) 2
        (accOf k h false none false false)).events = [Ev.setE [k] v .undef true] := he
    have hAcc : (putAcc (tsAccSet 11 (scenPre k h false none false) 2 v) 2
        (accOf k h false none false false)).accs
        = [(2, accOf k h false none false false)] := by
      show aSet (tsAccSet 11 (scenPre k h false none false) 2 v).accs 2
        (accOf k h false none false false) = _
      rw [ha]
      simp [aSet]
    have hPS : plainSlotAt (putAcc (tsAccSet 11 (scenPre k h false none false) 2 v) 2
        (accOf k h false none false false)) 1 k := hp
    have hH0 : aGet (putAcc (tsAccSet 11 (scenPre k h false none false) 2 v) 2
        (accOf k h false none false false)).heap 0
        = some ⟨.plain, [(k, ⟨true, .acc 2⟩)]⟩ := (hb 0 (by omega)).trans rfl
    refine ⟨by rw [hV]; exact hEv, ?_⟩
    intro v2
    rw [hV, scenDispatch _ k v2 hH0]
    obtain ⟨he2, -, -, -, -, -⟩ := scenAccSet k h v2
      (putAcc (tsAccSet 11 (scenPre k h false none false) 2 v) 2
        (accOf k h false none false false))
      false none false false hAcc hPS (Or.inl rfl)
    rw [he2, hEv]
    rfl

theorem c6_initial_suppression_witness :
    (¬ (JsVal.numV (.int 0)) = JsVal.undef) ∧
    (tsRegisterGeneric 12 (.str "k") (JsVal.numV (.int 0))
      (cfgSetterOnly (fun _ => ⟨[], false⟩)) false St.empty).2.events
      = [.setE [.str "k"] (.numV (.int 0)) .undef true] :=
  ⟨(fun hx => nomatch hx),
   ((c6_initial_suppression (.str "k") (fun _ => ⟨[], false⟩)).2 (.numV (.int 0))
     (fun hx => nomatch hx)).1⟩

/-- **C10** (assigning `undefined` to a registered key is processed like any
value): only the installer's eager initial write filters out `undefined`.
With a setter hook, a post-setter and `depth: Infinity` configured, a later
assignment of `undefined` through the front object logs a setter invocation
with `initial = false` and fires the post-setter, resets the getter to the
plain slot reader (`deepT = none`, the front read equals the slot read),
and writes `undefined` to the backing slot unless the hook vetoes. -/
theorem c10_assign_undefined_processed (k : JsKey) (h : SetterHook) :
    (tsSetProp 12 (tsRegisterGeneric 12 k .undef (cfgC10 h) false St.empty).2
        0 k .undef).events
      = [.postE [k] .undef .undef false, .setE [k] .undef .undef false] ∧
    (tsSetProp 12 (tsRegisterGeneric 12 k .undef (cfgC10 h) false St.empty).2
        0 k .undef).accs
      = [(2, accOf k h true (some (dOptsC10 h)) true false)] ∧
    tsGetProp 12 (tsSetProp 12
        (tsRegisterGeneric 12 k .undef (cfgC10 h) false St.empty).2 0 k .undef) 0 k
      = tsSlotRead 9 (tsSetProp 12
        (tsRegisterGeneric 12 k .undef (cfgC10 h) false St.empty).2 0 k .undef) 1 k ∧
    ((h ⟨.undef, .undef, false, [k]⟩).handled = false →
      tsSlotRead 12 (tsSetProp 12
        (tsRegisterGeneric 12 k .undef (cfgC10 h) false St.empty).2 0 k .undef) 1 k
        = .undef) := by
  have hreg : (tsRegisterGeneric 12 k .undef (cfgC10 h) false St.empty).2
      = scenReg k h true (some (dOptsC10 h)) true := by rw [scenRegUC10]
  rw [hreg, scenDispatch (scenReg k h true (some (dOptsC10 h)) true) k .undef rfl]
  obtain ⟨he, ha, hb, hp, hnv, -⟩ := scenAccSet k h .undef
    (scenReg k h true (some (dOptsC10 h)) true) true (some (dOptsC10 h)) true false
    rfl (scenReg_plainSlot k h true (some (dOptsC10 h)) true) (Or.inr rfl)
  have hEv : (tsAccSet 11 (scenReg k h true (some (dOptsC10 h)) true) 2 .undef).events
      = [Ev.postE [k] .undef .undef false, Ev.setE [k] .undef .undef false] := he
  have hH0 : aGet (tsAccSet 11 (scenReg k h true (some (dOptsC10 h)) true) 2
        .undef).heap 0 = some ⟨.plain, [(k, ⟨true, .acc 2⟩)]⟩ :=
    (hb 0 (by omega)).trans rfl
  have hNv : (h ⟨.undef, .undef, false, [k]⟩).handled = false →
      tsSlotRead 12 (tsAccSet 11 (scenReg k h true (some (dOptsC10 h)) true) 2
        .undef) 1 k = .undef := fun hnd => hnv hnd 12 (by omega)
  exact ⟨hEv, ha,
    scenFrontRead _ k h true (some (dOptsC10 h)) true ha hH0, hNv⟩

theorem c10_assign_undefined_processed_witness :
    ((fun _ => ⟨[], false⟩ : SetterHook) ⟨.undef, .undef, false, [.str "k"]⟩).handled
      = false ∧
    tsSlotRead 12 (tsSetProp 12 (tsRegisterGeneric 12 (.str "k") .undef
      (cfgC10 (fun _ => ⟨[], false⟩)) false St.empty).2 0 (.str "k") .undef)
      1 (.str "k") = .undef :=
  ⟨rfl, (c10_assign_undefined_processed (.str "k") (fun _ => ⟨[], false⟩)).2.2.2 rfl⟩

theorem st7Pre_plainSlot (k : JsKey) (d : Option (JsNum ⊕ RegOpts)) :
    plainSlotAt (st7Pre k d) 1 k :=
  ⟨⟨.plain, []⟩, rfl, fun hx => ObjKind.noConfusion hx, Or.inl rfl⟩

theorem st7Reg_plainSlot (k : JsKey) (d : Option (JsNum ⊕ RegOpts)) :
    plainSlotAt (st7Reg k d) 1 k :=
  ⟨⟨.plain, []⟩, rfl, fun hx => ObjKind.noConfusion hx, Or.inl rfl⟩

theorem scenReg7U (k : JsKey) (d : Option (JsNum ⊕ RegOpts)) :
    tsRegisterGeneric 12 k .undef (cfg7 d) false St.empty
      = ((0, 1), st7Reg k d) := rfl

theorem scen7AccSet (k : JsKey) (v : JsVal) (st : St) (d : Option (JsNum ⊕ RegOpts))
    (ini : Bool)
    (hacc : st.accs = [(2, acc7 k d ini)])
    (hps : plainSlotAt st 1 k)
    (hprim : jsPrimitive v = true) :
    (tsAccSet 11 st 2 v).events = st.events ∧
    (tsAccSet 11 st 2 v).accs = [(2, acc7 k d ini)] ∧
    (∀ b, b ≠ 1 → aGet (tsAccSet 11 st 2 v).heap b = aGet st.heap b) ∧
    plainSlotAt (tsAccSet 11 st 2 v) 1 k ∧
    (∃ o2 en, aGet (tsAccSet 11 st 2 v).heap 1 = some o2 ∧
      o2.kind ≠ ObjKind.mapk ∧ aGet o2.props k = some ⟨en, .data v⟩) ∧
    (∀ g, 2 ≤ g → tsSlotRead g (tsAccSet 11 st 2 v) 1 k = v) := by
  have hA : aGet st.accs 2 = some (acc7 k d ini) := by
    rw [hacc]; simp [aGet]
  have hguard : ∀ hp : List (Nat × JsObj),
      (v.typeofObject && evalFilter hp FilterFn.objectLiteralOrArray v) = false := by
    intro hp
    cases v <;> simp [jsPrimitive] at hprim <;>
      simp [JsVal.typeofObject, JsVal.typeofV, evalFilter]
  have hbody : tsAccSet 11 st 2 v = setDeep (tsSlotWrite 10 st 1 k v) 2 none := by
    rcases hd : (tsMkDepthOpts (RegOpts.mk (some 0) (some 1) none none d none none
        false) false).1 with _ | D
    · simp only [tsAccSet, hA, acc7, hd, tsExpand, Bool.false_eq_true, if_false,
        reduceIte]
    · simp only [tsAccSet, hA, acc7, hd, tsExpand, hguard, Bool.false_eq_true,
        if_false, reduceIte]
  obtain ⟨hwe, hwa, hwn, hwb, o2, ho2, hk2, en2, hsl2⟩ :=
    tsSlotWrite_plain_shape10 st 1 k v hps
  have hget2 : aGet (tsSlotWrite 10 st 1 k v).accs 2 = some (acc7 k d ini) := by
    rw [hwa, hacc]; simp [aGet]
  have hsd : setDeep (tsSlotWrite 10 st 1 k v) 2 none
      = { tsSlotWrite 10 st 1 k v with accs := [(2, acc7 k d ini)] } := by
    simp only [setDeep, hget2, putAcc]
    rw [hwa, hacc]
    simp [aSet, acc7]
  rw [hbody, hsd]
  refine ⟨hwe, rfl, fun b hb => hwb b hb, ⟨o2, ho2, hk2, Or.inr ⟨en2, v, hsl2⟩⟩,
    ⟨o2, en2, ho2, hk2, hsl2⟩, ?_⟩
  intro g hg
  obtain ⟨g2, rfl⟩ : ∃ g2, g = g2 + 1 + 1 := ⟨g - 2, by omega⟩
  exact tsSlotRead_plain_data g2 _ 1 k o2 en2 v ho2 hk2 hsl2

theorem scenFrontRead7 (st : St) (k : JsKey) (d : Option (JsNum ⊕ RegOpts)) (ini : Bool)
    (hacc : st.accs = [(2, acc7 k d ini)])
    (h0 : aGet st.heap 0 = some ⟨.plain, [(k, ⟨true, .acc 2⟩)]⟩) :
    tsGetProp 12 st 0 k = tsSlotRead 9 st 1 k := by
  have hA2 : aGet st.accs 2 = some (acc7 k d ini) := by
    rw [hacc]; simp [aGet]
  simp only [tsGetProp, h0, tsAccGet]
  simp only [aGet, reduceIte]
  rw [hA2]
  simp [acc7, tsRawGet]

theorem scenReg7V (k : JsKey) (v : JsVal) (d : Option (JsNum ⊕ RegOpts))
    (hv : ¬ v = .undef) (hprim : jsPrimitive v = true) :
    tsRegisterGeneric 12 k v (cfg7 d) false St.empty
      = ((0, 1), putAcc (tsAccSet 11 (st7Pre k d) 2 v) 2 (acc7 k d false)) := by
  have hA5 : aGet (tsAccSet 11 (st7Pre k d) 2 v).accs 2 = some (acc7 k d true) := by
    rw [(scen7AccSet k v (st7Pre k d) d true rfl (st7Pre_plainSlot k d) hprim).2.1]
    simp [aGet]
  simp only [tsRegisterGeneric, tsPrepareConfig, tsRegister, cfg7,
    RegOpts.target, RegOpts.endpoint, RegOpts.depthFilter, RegOpts.enumerable,
    RegOpts.depth, RegOpts.getterH, RegOpts.setterH, RegOpts.postH,
    RegOpts.withTarget, RegOpts.withEndpoint, resolveObj, allocObj, St.empty,
    putProp, putAcc, aGet, aSet, Option.getD,
    reduceIte, Nat.reduceAdd, if_neg hv, if_false]
  rw [show (⟨[(0, ⟨ObjKind.plain, [(k, ⟨true, PropVal.acc 2⟩)]⟩),
        (1, ⟨ObjKind.plain, []⟩)],
      [(2, ⟨1, k, [k], none, none, none, false, FilterFn.objectLiteralOrArray,
        (tsMkDepthOpts (RegOpts.mk (some 0) (some 1) none none d none none
          false) false).1,
        (tsMkDepthOpts (RegOpts.mk (some 0) (some 1) none none d none none
          false) false).2, true, false⟩)], 3, ([] : List Ev)⟩ : St)
      = st7Pre k d from rfl]
  rw [hA5]
  simp [putAcc, acc7, aSet]

/-- C7 counterexamples: the claim as stated fails in two independent ways.
First: with no custom getter configured, a setter hook that substitutes `7`
for an assigned initial `1` and returns a truthy handled signal leaves the
backing slot (and the front read) at `7`, not at the registered value `1`.
Second: with no hooks at all, registering the primitive `null` under
`depthFilter: Filter.any` and `depth: 1` runs the depth expander (because
`typeof null === 'object'` and the filter accepts everything), which
redirects the getter to a freshly allocated deep target, so the front
property reads that fresh object (address 3) instead of `null`, while the
backing slot holds `null`. -/
theorem c7_shallow_round_trip_counterexample :
    (tsSlotRead 12 (tsRegisterGeneric 12 (.str "k") (.numV (.int 1))
        (cfgSetterOnly (fun _ => ⟨[JsVal.numV (.int 7)], true⟩)) false St.empty).2
        1 (.str "k") = .numV (.int 7) ∧
     tsGetProp 12 (tsRegisterGeneric 12 (.str "k") (.numV (.int 1))
        (cfgSetterOnly (fun _ => ⟨[JsVal.numV (.int 7)], true⟩)) false St.empty).2
        0 (.str "k") = .numV (.int 7)) ∧
    (jsPrimitive .null = true ∧
     tsGetProp 12 (tsRegisterGeneric 12 (.str "k") .null
        (RegOpts.mk none none (some .anyF) none (some (.inl (.int 1))) none none
          false) false St.empty).2 0 (.str "k") = .ref 3 ∧
     ¬ (JsVal.ref 3 = JsVal.null) ∧
     tsSlotRead 12 (tsRegisterGeneric 12 (.str "k") .null
        (RegOpts.mk none none (some .anyF) none (some (.inl (.int 1))) none none
          false) false St.empty).2 1 (.str "k") = .null) :=
  ⟨⟨rfl, rfl⟩, rfl, rfl, (fun hx => nomatch hx), rfl⟩

/-- **C7** (shallow round-trip), amended: with no getter *and no setter*
hook configured and the default depth filter, for every primitive value `v`
(`undefined` and `null` included), key `k` and arbitrary `depth` option,
after `register(k, v)` the front property reads `v` and the backing slot
holds `v` (for `v = undefined` the initial write is skipped and both reads
yield `undefined`), and after a subsequent assignment of any primitive `v2`
through the front object both read `v2`. -/
theorem c7_shallow_round_trip_amended (k : JsKey) (v : JsVal)
    (d : Option (JsNum ⊕ RegOpts)) (hp : jsPrimitive v = true) :
    tsGetProp 12 (tsRegisterGeneric 12 k v (cfg7 d) false St.empty).2 0 k = v ∧
    tsSlotRead 12 (tsRegisterGeneric 12 k v (cfg7 d) false St.empty).2 1 k = v ∧
    ∀ v2 : JsVal, jsPrimitive v2 = true →
      tsGetProp 12 (tsSetProp 12
        (tsRegisterGeneric 12 k v (cfg7 d) false St.empty).2 0 k v2) 0 k = v2 ∧
      tsSlotRead 12 (tsSetProp 12
        (tsRegisterGeneric 12 k v (cfg7 d) false St.empty).2 0 k v2) 1 k = v2 := by
  by_cases hv : v = .undef
  · subst hv
    have hreg : (tsRegisterGeneric 12 k .undef (cfg7 d) false St.empty).2
        = st7Reg k d := by rw [scenReg7U]
    refine ⟨?_, ?_, ?_⟩
    · rw [hreg, scenFrontRead7 (st7Reg k d) k d false rfl rfl]
      rfl
    · rw [hreg]
      rfl
    · intro v2 hp2
      rw [hreg, scenDispatch (st7Reg k d) k v2 rfl]
      obtain ⟨-, ha2, hb2, -, -, hread2⟩ := scen7AccSet k v2 (st7Reg k d) d false
        rfl (st7Reg_plainSlot k d) hp2
      refine ⟨?_, hread2 12 (by omega)⟩
      rw [scenFrontRead7 _ k d false ha2 ((hb2 0 (by omega)).trans rfl)]
      exact hread2 9 (by omega)
  have hreg : (tsRegisterGeneric 12 k v (cfg7 d) false St.empty).2
      = putAcc (tsAccSet 11 (st7Pre k d) 2 v) 2 (acc7 k d false) := by
    rw [scenReg7V k v d hv hp]
  obtain ⟨he, ha, hb, hps, ⟨o2, en2, ho2, hk2, hsl2⟩, hread⟩ :=
    scen7AccSet k v (st7Pre k d) d true rfl (st7Pre_plainSlot k d) hp
  have hAcc : (putAcc (tsAccSet 11 (st7Pre k d) 2 v) 2 (acc7 k d false)).accs
      = [(2, acc7 k d false)] := by
    show aSet (tsAccSet 11 (st7Pre k d) 2 v).accs 2 (acc7 k d false) = _
    rw [ha]
    simp [aSet]
  have hH0 : aGet (putAcc (tsAccSet 11 (st7Pre k d) 2 v) 2 (acc7 k d false)).heap 0
      = some ⟨.plain, [(k, ⟨true, .acc 2⟩)]⟩ := (hb 0 (by omega)).trans rfl
  have hPS : plainSlotAt (putAcc (tsAccSet 11 (st7Pre k d) 2 v) 2 (acc7 k d false))
      1 k := hps
  have ho2V : aGet (putAcc (tsAccSet 11 (st7Pre k d) 2 v) 2 (acc7 k d false)).heap 1
      = some o2 := ho2
  have hslotV : ∀ g, 2 ≤ g →
      tsSlotRead g (putAcc (tsAccSet 11 (st7Pre k d) 2 v) 2 (acc7 k d false)) 1 k
        = v := by
    intro g hg
    obtain ⟨g2, rfl⟩ : ∃ g2, g = g2 + 1 + 1 := ⟨g - 2, by omega⟩
    exact tsSlotRead_plain_data g2 _ 1 k o2 en2 v ho2V hk2 hsl2
  refine ⟨?_, ?_, ?_⟩
  · rw [hreg, scenFrontRead7 _ k d false hAcc hH0]
    exact hslotV 9 (by omega)
  · rw [hreg]
    exact hslotV 12 (by omega)
  · intro v2 hp2
    rw [hreg, scenDispatch _ k v2 hH0]
    obtain ⟨-, ha2, hb2, -, -, hread2⟩ := scen7AccSet k v2
      (putAcc (tsAccSet 11 (st7Pre k d) 2 v) 2 (acc7 k d false)) d false hAcc hPS hp2
    refine ⟨?_, hread2 12 (by omega)⟩
    rw [scenFrontRead7 _ k d false ha2 ((hb2 0 (by omega)).trans hH0)]
    exact hread2 9 (by omega)

theorem c7_shallow_round_trip_amended_witness :
    (jsPrimitive (JsVal.boolV false) = true ∧
     tsGetProp 12 (tsRegisterGeneric 12 (.str "k") (.boolV false)
       (cfg7 (some (.inl (.int 2)))) false St.empty).2 0 (.str "k") = .boolV false) ∧
    (jsPrimitive JsVal.undef = true ∧
     tsGetProp 12 (tsRegisterGeneric 12 (.str "k") .undef
       (cfg7 none) false St.empty).2 0 (.str "k") = .undef) :=
  ⟨⟨rfl, (c7_shallow_round_trip_amended (.str "k") (.boolV false)
     (some (.inl (.int 2))) rfl).1⟩,
   ⟨rfl, (c7_shallow_round_trip_amended (.str "k") .undef none rfl).1⟩⟩

theorem endpoint_withEndpoint (c : RegOpts) (v : Option Nat) :
    (c.withEndpoint v).endpoint = v := by cases c; rfl

theorem target_withEndpoint (c : RegOpts) (v : Option Nat) :
    (c.withEndpoint v).target = c.target := by cases c; rfl

theorem target_withTarget (c : RegOpts) (v : Option Nat) :
    (c.withTarget v).target = v := by cases c; rfl

/-- **C3** (definition-chain normalization invariant): for every nonempty
ordered sequence of partial configurations, after normalization the chain
has the same length, the backing store (`endpoint`) of every configuration
is reference-identical to the front object (`target`) of the following
configuration — so any endpoint supplied at a non-terminal index is
discarded — and the last configuration carries the chain's single leaf
store: the endpoint it supplied, or a freshly allocated container. -/
theorem c3_chain_normalization (cs : List RegOpts) (st : St) (hne : ¬ cs = []) :
    (p8PrepareChain cs st).1.length = cs.length ∧
    List.Chain' (fun a b => a.endpoint = b.target) (p8PrepareChain cs st).1 ∧
    ∃ lst, (p8PrepareChain cs st).1.getLast? = some lst ∧
      lst.endpoint.isSome = true ∧
      ∀ c e, cs.getLast? = some c → c.endpoint = some e → lst.endpoint = some e := by
  induction cs generalizing st with
  | nil => exact absurd rfl hne
  | cons c tail ih =>
    cases tail with
    | nil =>
      refine ⟨rfl, List.chain'_singleton _, ?_⟩
      refine ⟨(c.withTarget (some (resolveObj st c.target).1)).withEndpoint
        (some (resolveObj (resolveObj st c.target).2 c.endpoint).1), rfl, ?_, ?_⟩
      · rw [endpoint_withEndpoint]
        rfl
      · intro c0 e hc0 he
        have hc : c0 = c := by simpa using hc0.symm
        subst hc
        rw [endpoint_withEndpoint, he]
        simp [resolveObj]
    | cons c1 rest =>
      obtain ⟨hlen, hch, lst, hlast, hsome, hsupp⟩ := ih st (by simp)
      obtain ⟨next, tl, hpr⟩ : ∃ next tl, (p8PrepareChain (c1 :: rest) st).1
          = next :: tl := by
        cases hp : (p8PrepareChain (c1 :: rest) st).1 with
        | nil => rw [hp] at hlen; simp at hlen
        | cons a b => exact ⟨a, b, rfl⟩
      have hout : (p8PrepareChain (c :: c1 :: rest) st).1
          = ((c.withTarget (some (resolveObj (p8PrepareChain (c1 :: rest) st).2
              c.target).1)).withEndpoint next.target) :: next :: tl := by
        simp only [p8PrepareChain]
        rw [hpr]
      rw [hout]
      refine ⟨?_, ?_, ?_⟩
      · have := hlen
        rw [hpr] at this
        simp at this ⊢
        omega
      · rw [List.chain'_cons]
        refine ⟨endpoint_withEndpoint _ _, ?_⟩
        rw [hpr] at hch
        exact hch
      · refine ⟨lst, ?_, hsome, ?_⟩
        · rw [List.getLast?_cons_cons]
          rw [hpr] at hlast
          exact hlast
        · intro c0 e hc0 he
          rw [List.getLast?_cons_cons] at hc0
          exact hsupp c0 e hc0 he

theorem c3_chain_normalization_witness :
    (¬ ([RegOpts.empty, RegOpts.empty] : List RegOpts) = []) ∧
    (p8PrepareChain [RegOpts.empty, RegOpts.empty] St.empty).1.length = 2 ∧
    List.Chain' (fun a b => a.endpoint = b.target)
      (p8PrepareChain [RegOpts.empty, RegOpts.empty] St.empty).1 :=
  ⟨(fun hx => nomatch hx),
   (c3_chain_normalization [RegOpts.empty, RegOpts.empty] St.empty
     (fun hx => nomatch hx)).1,
   (c3_chain_normalization [RegOpts.empty, RegOpts.empty] St.empty
     (fun hx => nomatch hx)).2.1⟩

/-- C8 counterexamples, both at the static entry point: the static
`register` never validates the key, so a non-primitive key (an object
reference) raises no error there; and its target check is
`typeof target !== "object"`, which `null` passes, so a `null` target —
not a container — raises no error either. -/
theorem c8_error_taxonomy_counterexample :
    (claimIsPrimitiveKey (.ref 1) = false ∧
     jsStaticRegisterBoundary (.ref 0) (.ref 1) = none) ∧
    (claimIsContainer .null = false ∧
     jsStaticRegisterBoundary .null (.strV "k") = none) :=
  ⟨⟨rfl, rfl⟩, ⟨rfl, rfl⟩⟩

/-- **C8** (error taxonomy), amended: the instance registration boundary
raises `InvalidArgument` exactly for keys that are not of a primitive key
type (and raises no other error kind), while the static boundary ignores
the key entirely and raises `InvalidArgument` exactly when the target
argument fails `typeof target === "object"`, i.e. when it is neither a
container nor `null`. -/
theorem c8_error_taxonomy_amended :
    (∀ key : JsVal, jsInstanceRegisterBoundary key
        = if claimIsPrimitiveKey key then none else some .invalidArgument) ∧
    (∀ tgt key1 key2 : JsVal,
      jsStaticRegisterBoundary tgt key1 = jsStaticRegisterBoundary tgt key2) ∧
    (∀ tgt key : JsVal, jsStaticRegisterBoundary tgt key = none ↔
      (claimIsContainer tgt = true ∨ tgt = .null)) := by
  refine ⟨?_, ?_, ?_⟩
  · intro key
    cases key <;> rfl
  · intro tgt key1 key2
    rfl
  · intro tgt key
    cases tgt <;>
      simp [jsStaticRegisterBoundary, claimIsContainer, JsVal.typeofV]
